import Mathlib

/-!
Verification of `tools/compiler/buildDatabase.py`, a repository-wide
package-index builder.  The Python source is shallowly embedded here:
strings are modelled as `List Char`, JSON values as an inductive type,
the filesystem and the network probe as explicit data supplied in an
environment, and the single run of `main` as a pure function from that
environment to its printed lines, exit code and written outputs.

Modelling notes (all deviations are listed here):
* Python `urllib.parse.urlparse` is modelled by `pyUrlparse` below,
  restricted to the fields this program reads.  The `params` component
  (split on `;`) is folded into `path`; this is observationally equal for
  every input without `;`.  The WHATWG input cleaning of `urlsplit`
  (strip leading C0 controls and spaces, delete every tab, CR and LF) is
  modelled.  The check that raises
  `ValueError("Invalid IPv6 URL")` on a netloc containing an unmatched
  square bracket is modelled; the additional bracketed-host validation of
  newer interpreters and the non-ASCII NFKC netloc check are not, so
  theorems quantifying over arbitrary inputs restrict themselves to
  ASCII inputs without square brackets.
* The `urlparse` call at line 235 of `main` sits outside any `try`: a
  `repositoryURL` that is a non-blank string rejected by `urlparse`
  raises an uncaught `ValueError` there, killing the run mid-scan.  The
  loop body `processPackage` models the body on inputs where that call
  returns; `processPackageE`, `scanFoldE` and `mainRunE` model the raise
  (test `repoUrlRaises`), aborting the scan, and are proved to agree
  with the total functions on raise-free inputs
  (`processPackageE_ok`, `scanFoldE_ok`, `mainRunE_eq_mainRun`).
* OS-level read/write failures (`OSError`) are not modelled: the
  filesystem oracle in the environment always answers.
* `uuid.uuid4()` is modelled by an injected generator `uuidGen : Nat →
  List Char` consumed left to right.
* The outbound reachability probe is modelled, as in the specification,
  by an injected capability `urlExists : List Char → Bool`.
* Path arithmetic (`Path.__truediv__`) is not normalised: the per-package
  file oracle is keyed by the literal relative name found in the
  manifest.
-/

/-- Coerce a string literal to the `List Char` representation used
throughout this development. -/
def S (x : String) : List Char := x.data

/-- Characters stripped by Python `str.strip()` (ASCII whitespace). -/
def pyWsChars : List Char := [' ', '\t', '\n', '\r', '\x0b', '\x0c']

/-- Test for Python ASCII whitespace. -/
def isPyWs (c : Char) : Bool := pyWsChars.contains c

/-- Python `str.strip()`: remove leading and trailing whitespace. -/
def pyStrip (l : List Char) : List Char :=
  ((l.dropWhile isPyWs).reverse.dropWhile isPyWs).reverse

/-- Python `str.lstrip("/")`: remove leading slashes. -/
def pyLstripSlash (l : List Char) : List Char := l.dropWhile (fun c => c = '/')

/-- Python `sub in s` for strings: does `pat` occur as a contiguous
substring of `l`? -/
def containsSeq (pat : List Char) : List Char → Bool
  | [] => pat.isEmpty
  | c :: cs => pat.isPrefixOf (c :: cs) || containsSeq pat cs

/-- Python `s.find(sub)` (as an `Option`; Python returns `-1` for
`none`): index of the first occurrence of `pat` in `l`. -/
def findSeq? (pat : List Char) : List Char → Option Nat
  | [] => if pat.isEmpty then some 0 else none
  | c :: cs =>
    if pat.isPrefixOf (c :: cs) then some 0
    else (findSeq? pat cs).map (· + 1)

/-- Python `s.split(sep)` for a non-empty multi-character separator:
non-overlapping splits scanning left to right, with explicit recursion
fuel so that the definition is structural (kernel-computable).  (Python
raises on an empty separator; this program never passes one, and the
model returns `[l]` in that case.) -/
def splitOnSeqFuel (pat : List Char) : Nat → List Char → List (List Char)
  | _, [] => [[]]
  | 0, l => [l]
  | fuel + 1, c :: cs =>
    if pat ≠ [] ∧ pat.isPrefixOf (c :: cs) then
      [] :: splitOnSeqFuel pat fuel (cs.drop (pat.length - 1))
    else
      match splitOnSeqFuel pat fuel cs with
      | [] => [[c]]
      | h :: t => (c :: h) :: t

/-- Python `s.split(sep)` (the fuel of `splitOnSeqFuel` is the input
length, which always suffices). -/
def splitOnSeq (pat : List Char) (l : List Char) : List (List Char) :=
  splitOnSeqFuel pat l.length l

/-- Python `s.replace(old, new)` for a non-empty `old`: replace every
non-overlapping occurrence, scanning left to right, with explicit
recursion fuel so that the definition is structural
(kernel-computable).  (For an empty `old` the model returns the string
unchanged; this program never passes one.) -/
def replaceAllFuel (pat rep : List Char) : Nat → List Char → List Char
  | _, [] => []
  | 0, l => l
  | fuel + 1, c :: cs =>
    if pat ≠ [] ∧ pat.isPrefixOf (c :: cs) then
      rep ++ replaceAllFuel pat rep fuel (cs.drop (pat.length - 1))
    else
      c :: replaceAllFuel pat rep fuel cs

/-- Python `s.replace(old, new)` (the fuel of `replaceAllFuel` is the
input length, which always suffices). -/
def replaceAll (pat rep : List Char) (l : List Char) : List Char :=
  replaceAllFuel pat rep l.length l

/-- Python `s.endswith(t)` as used here, via `List.isSuffixOf`. -/
def endsWithSeq (pat l : List Char) : Bool := pat.isSuffixOf l

/-- ASCII lower-casing table for `str.lower()` (only ASCII letters are
relevant for the scheme strings this program handles). -/
def pyLowerPairs : List (Char × Char) :=
  [('A', 'a'), ('B', 'b'), ('C', 'c'), ('D', 'd'), ('E', 'e'), ('F', 'f'),
   ('G', 'g'), ('H', 'h'), ('I', 'i'), ('J', 'j'), ('K', 'k'), ('L', 'l'),
   ('M', 'm'), ('N', 'n'), ('O', 'o'), ('P', 'p'), ('Q', 'q'), ('R', 'r'),
   ('S', 's'), ('T', 't'), ('U', 'u'), ('V', 'v'), ('W', 'w'), ('X', 'x'),
   ('Y', 'y'), ('Z', 'z')]

/-- Lower-case one character, Python `str.lower()` on ASCII. -/
def pyToLowerChar (c : Char) : Char :=
  ((pyLowerPairs.find? (fun p => p.1 = c)).map Prod.snd).getD c

/-- Lower-case a string. -/
def pyToLower (l : List Char) : List Char := l.map pyToLowerChar

/-- Characters allowed in a URL scheme after the first
(`scheme_chars` in `urllib.parse`). -/
def schemeChars : List Char :=
  (S "abcdefghijklmnopqrstuvwxyzABCDEFGHIJKLMNOPQRSTUVWXYZ0123456789+-.")

/-- ASCII alphabetic test (Python `c.isascii() and c.isalpha()`). -/
def isAsciiAlpha (c : Char) : Bool :=
  ('a' ≤ c ∧ c ≤ 'z') ∨ ('A' ≤ c ∧ c ≤ 'Z')

/-- Result of `urllib.parse.urlparse` restricted to the components this
program reads (`params` folded into `path`, see the module comment). -/
structure UrlParts where
  scheme : List Char
  netloc : List Char
  path : List Char
  query : List Char
  fragment : List Char
deriving DecidableEq, Repr

/-- Scheme-splitting step of `urlsplit`: if the text before the first
`:` is a valid scheme (first character an ASCII letter, the rest from
`schemeChars`), split it off lower-cased. -/
def pySplitScheme (url : List Char) : List Char × List Char :=
  match List.findIdx? (fun c => c = ':') url with
  | none => ([], url)
  | some i =>
    if 0 < i ∧ isAsciiAlpha (url.headD ' ')
        ∧ (url.take i).all (fun c => schemeChars.contains c) then
      (pyToLower (url.take i), url.drop (i + 1))
    else ([], url)

/-- Netloc delimiter test: a netloc extends to the first `/`, `?` or
`#`. -/
def isNetlocStop (c : Char) : Bool := c = '/' ∨ c = '?' ∨ c = '#'

/-- WHATWG C0-control-or-space test used by `urlsplit` to strip leading
characters. -/
def isC0OrSpace (c : Char) : Bool := c.toNat ≤ 0x20

/-- Unsafe URL byte test: `urlsplit` deletes every tab, carriage return
and line feed from its input. -/
def isUnsafeUrlByte (c : Char) : Bool := c = '\t' ∨ c = '\r' ∨ c = '\n'

/-- Input cleaning performed at the top of `urlsplit`: strip leading C0
control characters and spaces, then delete every tab, CR and LF. -/
def pyUrlPreclean (url : List Char) : List Char :=
  (url.dropWhile isC0OrSpace).filter (fun c => !isUnsafeUrlByte c)

/-- Model of `urllib.parse.urlparse` (see the module comment for its
scope).  Fails exactly where `urlsplit` raises
`ValueError("Invalid IPv6 URL")`: a netloc containing `[` without `]` or
`]` without `[`. -/
def pyUrlparse (rawUrl : List Char) : Except (List Char) UrlParts :=
  let url := pyUrlPreclean rawUrl
  let (scheme, rest) := pySplitScheme url
  let (netloc, rest2) :=
    if rest.take 2 = S "//" then
      (((rest.drop 2).takeWhile (fun c => !isNetlocStop c)),
        ((rest.drop 2).dropWhile (fun c => !isNetlocStop c)))
    else ([], rest)
  if (netloc.contains '[' ∧ ¬ netloc.contains ']')
      ∨ (netloc.contains ']' ∧ ¬ netloc.contains '[') then
    Except.error (S "Invalid IPv6 URL")
  else
    let (beforeHash, fragment) :=
      if rest2.contains '#' then
        (rest2.takeWhile (fun c => c ≠ '#'),
          (rest2.dropWhile (fun c => c ≠ '#')).drop 1)
      else (rest2, [])
    let (path, query) :=
      if beforeHash.contains '?' then
        (beforeHash.takeWhile (fun c => c ≠ '?'),
          (beforeHash.dropWhile (fun c => c ≠ '?')).drop 1)
      else (beforeHash, [])
    Except.ok ⟨scheme, netloc, path, query, fragment⟩

/-- Schemes for which `urlunsplit` re-inserts the `//` separator even
when the netloc is empty (`uses_netloc` in `urllib.parse`; the empty
entry of the Python list is irrelevant because the condition also
requires a non-empty scheme). -/
def usesNetloc : List (List Char) :=
  [S "ftp", S "http", S "gopher", S "nntp", S "telnet", S "imap",
   S "wais", S "file", S "mms", S "https", S "shttp", S "snews",
   S "prospero", S "rtsp", S "rtsps", S "rtspu", S "rsync", S "svn",
   S "svn+ssh", S "sftp", S "nfs", S "git", S "git+ssh", S "ws", S "wss"]

/-- Model of `urllib.parse.urlunsplit` (the reassembly performed by
`ParseResult.geturl()`; with `params` folded into `path` it coincides
with `urlunparse` for `;`-free inputs). -/
def pyUrlunsplit (p : UrlParts) : List Char :=
  let url := p.path
  let url :=
    if p.netloc ≠ [] ∨
        (p.scheme ≠ [] ∧ usesNetloc.contains p.scheme ∧ url.take 2 ≠ S "//") then
      (S "//") ++ p.netloc ++
        (if url ≠ [] ∧ url.take 1 ≠ S "/" then (S "/") ++ url else url)
    else url
  let url := if p.scheme ≠ [] then p.scheme ++ (S ":") ++ url else url
  let url := if p.query ≠ [] then url ++ (S "?") ++ p.query else url
  if p.fragment ≠ [] then url ++ (S "#") ++ p.fragment else url

/-- Default branch constant `DEFAULT_REPOSITORY_BRANCH = "main"`. -/
def DEFAULT_REPOSITORY_BRANCH : List Char := S "main"

/-- `_normalize_repository_url`: trim whitespace and default the scheme
to `https://` when no scheme separator is present. -/
def normalizeRepositoryUrl (value : List Char) : List Char :=
  let url := pyStrip value
  if url = [] then url
  else if ¬ containsSeq (S "://") url then (S "https://") ++ url
  else url

/-- `_strip_query_and_fragment`: parse, blank the query and fragment,
reassemble.  Propagates the parser's `ValueError`. -/
def stripQueryAndFragment (url : List Char) : Except (List Char) (List Char) := do
  let p ← pyUrlparse url
  pure (pyUrlunsplit { p with query := [], fragment := [] })

/-- `_strip_file_name`: drop the trailing path segment unless the path
already ends in `/`.  Propagates the parser's `ValueError`. -/
def stripFileName (url : List Char) : Except (List Char) (List Char) := do
  let p ← pyUrlparse url
  if p.path.getLast? = some '/' then
    pure url
  else
    let trimmed := (List.intercalate (S "/") (List.splitOn '/' p.path).dropLast) ++ S "/"
    pure (pyUrlunsplit { p with path := trimmed })

/-- `_ensure_trailing_slash`. -/
def ensureTrailingSlash (url : List Char) : List Char :=
  if url.getLast? = some '/' then url else url ++ S "/"

/-- `_build_raw_base`: normalise a repository URL into the canonical raw
content base URL.  The `Except` layer carries the `ValueError` that the
underlying URL parser can raise. -/
def buildRawBase (repositoryUrl : List Char) : Except (List Char) (List Char) := do
  let clean ← stripQueryAndFragment (normalizeRepositoryUrl repositoryUrl)
  if containsSeq (S "raw.githubusercontent.com") clean then
    let s ← stripFileName clean
    pure (ensureTrailingSlash s)
  else if containsSeq (S "github.com/") clean then
    let repoPath := replaceAll (S "https://") [] clean
    let repoPath := replaceAll (S "http://") [] repoPath
    let repoPath :=
      match findSeq? (S "github.com/") repoPath with
      | some i => repoPath.drop (i + (S "github.com/").length)
      | none => repoPath
    let repoPath := pyLstripSlash repoPath
    let (repoPath, branch) :=
      if containsSeq (S "/tree/") repoPath then
        let parts := splitOnSeq (S "/tree/") repoPath
        let rp := parts.headD []
        let branch :=
          if 1 < parts.length then
            let branchPart := (parts.get? 1).getD []
            match List.findIdx? (fun c => c = '/') branchPart with
            | some j => branchPart.take j
            | none => branchPart
          else DEFAULT_REPOSITORY_BRANCH
        (rp, branch)
      else (repoPath, DEFAULT_REPOSITORY_BRANCH)
    let repoPath := if repoPath.getLast? = some '/' then repoPath.dropLast else repoPath
    let repoPath :=
      if endsWithSeq (S ".git") repoPath then repoPath.take (repoPath.length - 4)
      else repoPath
    pure ((S "https://raw.githubusercontent.com/") ++ repoPath
      ++ (S "/refs/heads/") ++ branch ++ (S "/"))
  else
    let s ← stripFileName clean
    pure (ensureTrailingSlash s)

/-- JSON values as produced by `json.load`: the manifest files, the
configuration file and the assembled catalog all live in this type.
Numbers are modelled as integers (no manifest field or configuration
value in scope uses fractional numbers). -/
inductive JValue where
  | null
  | bool (b : Bool)
  | num (n : Int)
  | str (s : List Char)
  | arr (items : List JValue)
  | obj (fields : List (List Char × JValue))
deriving Repr

/-- Python `dict.get(key)` on a parsed JSON object.  Field lists model
dicts, so keys are unique in every value this development constructs;
lookup takes the first match.  On a non-object the model answers `none`
(CPython would raise `AttributeError`; every theorem quantifying over
environments restricts manifests and the configuration to objects, see
`envOk`). -/
def objGet (j : JValue) (key : List Char) : Option JValue :=
  match j with
  | .obj fields => (fields.find? (fun f => f.1 == key)).map Prod.snd
  | _ => none

/-- Python `d[key] = v` on the field list of a dict: replace the first
binding in place, else append. -/
def objSetFields (fields : List (List Char × JValue)) (key : List Char)
    (v : JValue) : List (List Char × JValue) :=
  match fields with
  | [] => [(key, v)]
  | (k, w) :: rest =>
    if k = key then (k, v) :: rest else (k, w) :: objSetFields rest key v

/-- Python `d[key] = v` on a JSON object (identity on non-objects). -/
def objSet (j : JValue) (key : List Char) (v : JValue) : JValue :=
  match j with
  | .obj fields => .obj (objSetFields fields key v)
  | other => other

/-- Python `d.pop(key, None)`: remove the binding for `key`. -/
def objPopFields (fields : List (List Char × JValue)) (key : List Char) :
    List (List Char × JValue) :=
  match fields with
  | [] => []
  | (k, w) :: rest =>
    if k = key then rest else (k, w) :: objPopFields rest key

/-- Python `d.pop(key, None)` on a JSON object (identity on
non-objects). -/
def objPop (j : JValue) (key : List Char) : JValue :=
  match j with
  | .obj fields => .obj (objPopFields fields key)
  | other => other

/-- Hexadecimal digit for JSON control-character escapes. -/
def hexDigit (n : Nat) : Char := (S "0123456789abcdef").getD n '0'

/-- Escape one character the way `json.dumps(..., ensure_ascii=False)`
does. -/
def jsonEscapeChar (c : Char) : List Char :=
  if c = '"' then ['\\', '"']
  else if c = '\\' then ['\\', '\\']
  else if c = '\n' then ['\\', 'n']
  else if c = '\t' then ['\\', 't']
  else if c = '\r' then ['\\', 'r']
  else if c.toNat = 8 then ['\\', 'b']
  else if c.toNat = 12 then ['\\', 'f']
  else if c.toNat < 32 then
    ['\\', 'u', '0', '0', hexDigit (c.toNat / 16), hexDigit (c.toNat % 16)]
  else [c]

/-- Serialise a JSON string literal. -/
def jsonQuote (s : List Char) : List Char :=
  ['"'] ++ s.flatMap jsonEscapeChar ++ ['"']

/-- Decimal rendering of an integer, as `json.dumps` prints numbers. -/
def intStr (n : Int) : List Char := (toString n).data

/-- Decimal rendering of a natural number (used in length-limit error
messages). -/
def natStr (n : Nat) : List Char := (toString n).data

mutual

/-- Model of `json.dumps(value, ensure_ascii=False)` with the default
separators, as used by `_format_value` for error messages. -/
def jsonDumps : JValue → List Char
  | .null => S "null"
  | .bool true => S "true"
  | .bool false => S "false"
  | .num n => intStr n
  | .str s => jsonQuote s
  | .arr items => ['['] ++ jsonDumpsList items ++ [']']
  | .obj fields => [Char.ofNat 123] ++ jsonDumpsFields fields ++ [Char.ofNat 125]

/-- Comma-separated rendering of array items. -/
def jsonDumpsList : List JValue → List Char
  | [] => []
  | [x] => jsonDumps x
  | x :: xs => jsonDumps x ++ (S ", ") ++ jsonDumpsList xs

/-- Comma-separated rendering of object fields. -/
def jsonDumpsFields : List (List Char × JValue) → List Char
  | [] => []
  | [(k, v)] => jsonQuote k ++ (S ": ") ++ jsonDumps v
  | (k, v) :: fs => jsonQuote k ++ (S ": ") ++ jsonDumps v ++ (S ", ") ++ jsonDumpsFields fs

end

/-- `_format_value`: render a value for inclusion in an error message.
(The `TypeError` fallback to `repr` can never fire: every `JValue` is
serialisable.) -/
def formatValue (v : JValue) : List Char := jsonDumps v

/-- `_format_value` applied to an optional field value; a missing field
is Python `None`, rendered `null`. -/
def formatOpt (v : Option JValue) : List Char :=
  formatValue (v.getD .null)

/-- The base64 alphabet in index order. -/
def b64Alphabet : List Char :=
  S "ABCDEFGHIJKLMNOPQRSTUVWXYZabcdefghijklmnopqrstuvwxyz0123456789+/"

/-- Index of a character in the base64 alphabet (callers establish
membership first). -/
def b64Val (c : Char) : Nat := List.findIdx (fun x => x = c) b64Alphabet

/-- The character/padding shape enforced by
`base64.b64decode(s, validate=True)`: alphabet characters followed by at
most two `=`. -/
def b64ValidChars (s : List Char) : Bool :=
  let r := s.reverse
  (r.takeWhile (fun c => c = '=')).length ≤ 2
    ∧ (r.dropWhile (fun c => c = '=')).all (fun c => b64Alphabet.contains c)

/-- Decode validated base64 text four characters at a time; `none` when
the length is not a multiple of four or padding appears before the final
group (`binascii.Error` in Python). -/
def b64DecodeGroups : List Char → Option (List Nat)
  | [] => some []
  | c1 :: c2 :: c3 :: c4 :: rest =>
    let v1 := b64Val c1
    let v2 := b64Val c2
    if c3 = '=' ∧ c4 = '=' then
      if rest = [] then some [v1 * 4 + v2 / 16] else none
    else if c4 = '=' then
      if rest = [] then
        some [v1 * 4 + v2 / 16, (v2 % 16) * 16 + b64Val c3 / 4]
      else none
    else if c3 = '=' then none
    else
      match b64DecodeGroups rest with
      | none => none
      | some tl =>
        some ([v1 * 4 + v2 / 16, (v2 % 16) * 16 + b64Val c3 / 4,
          (b64Val c3 % 4) * 64 + b64Val c4] ++ tl)
  | _ => none

/-- Model of `base64.b64decode(s, validate=True)`: `none` exactly where
Python raises `binascii.Error`. -/
def pyB64Decode (s : List Char) : Option (List Nat) :=
  if b64ValidChars s then b64DecodeGroups s else none

/-- UTF-8 continuation byte test. -/
def isUtf8Cont (b : Nat) : Bool := 0x80 ≤ b ∧ b ≤ 0xBF

/-- Strict UTF-8 decoding of a byte list, as `bytes.decode("utf-8")`:
rejects overlong forms, surrogates and code points above `0x10FFFF`.
Returns the decoded code points. -/
def utf8Decode : List Nat → Option (List Char)
  | [] => some []
  | b :: bs =>
    if b < 0x80 then
      match utf8Decode bs with
      | some t => some (Char.ofNat b :: t)
      | none => none
    else if 0xC2 ≤ b ∧ b ≤ 0xDF then
      match bs with
      | b2 :: bs2 =>
        if isUtf8Cont b2 then
          match utf8Decode bs2 with
          | some t => some (Char.ofNat ((b - 0xC0) * 64 + (b2 - 0x80)) :: t)
          | none => none
        else none
      | [] => none
    else if 0xE0 ≤ b ∧ b ≤ 0xEF then
      match bs with
      | b2 :: b3 :: bs3 =>
        let lo2 := if b = 0xE0 then 0xA0 else 0x80
        let hi2 := if b = 0xED then 0x9F else 0xBF
        if lo2 ≤ b2 ∧ b2 ≤ hi2 ∧ isUtf8Cont b3 then
          match utf8Decode bs3 with
          | some t =>
            some (Char.ofNat ((b - 0xE0) * 4096 + (b2 - 0x80) * 64 + (b3 - 0x80)) :: t)
          | none => none
        else none
      | _ => none
    else if 0xF0 ≤ b ∧ b ≤ 0xF4 then
      match bs with
      | b2 :: b3 :: b4 :: bs4 =>
        let lo2 := if b = 0xF0 then 0x90 else 0x80
        let hi2 := if b = 0xF4 then 0x8F else 0xBF
        if lo2 ≤ b2 ∧ b2 ≤ hi2 ∧ isUtf8Cont b3 ∧ isUtf8Cont b4 then
          match utf8Decode bs4 with
          | some t =>
            some (Char.ofNat ((b - 0xF0) * 262144 + (b2 - 0x80) * 4096
              + (b3 - 0x80) * 64 + (b4 - 0x80)) :: t)
          | none => none
        else none
      | _ => none
    else none

/-- An apostrophe character, used inside a configuration error
message. -/
def apos : Char := Char.ofNat 39

/-- One discovered package: the path of the directory that holds its
`manifest.json` (as segments relative to the packages root), the result
of parsing that manifest (`Except` carries the line and column of a
JSON syntax error), the content of the sibling `autogen_id` file when it
exists, and the set of relative names that resolve to existing files in
the package directory. -/
structure PackageSrc where
  relDirParts : List (List Char)
  manifestData : Except (Nat × Nat) JValue
  autogenId : Option (List Char)
  files : List (List Char)

/-- One run's environment: the discovered packages (in arbitrary
discovery order; `main` sorts them), the parsed configuration file
(`none` models an unreadable or syntactically invalid file), the
injected reachability probe and the injected UUID generator. -/
structure Env where
  pkgs : List PackageSrc
  configJson : Option JValue
  urlExists : List Char → Bool
  uuidGen : Nat → List Char

/-- `str(manifest_path.relative_to(repo_root))`: the human-readable
package label used in every error message. -/
def packageLabel (pkg : PackageSrc) : List Char :=
  List.intercalate (S "/") ((S "packages") :: pkg.relDirParts ++ [S "manifest.json"])

/-- `rel_to_packages.parts[0] if rel_to_packages.parts else ""`. -/
def userNameFromPath (pkg : PackageSrc) : List Char :=
  (pkg.relDirParts ++ [S "manifest.json"]).headD []

/-- `manifest_path.parent.relative_to(packages_root).as_posix()`. -/
def relPackageDir (pkg : PackageSrc) : List Char :=
  if pkg.relDirParts = [] then S "." else List.intercalate (S "/") pkg.relDirParts

/-- Error text of `_get_config` wrapped by `main` into a printed line:
missing or blank `url`. -/
def configUrlErrMsg : List Char :=
  (S "config.json missing valid ") ++ [apos] ++ (S "url") ++ [apos] ++ (S " value.")

/-- `_get_config`: `none` (unreadable or invalid JSON) or a missing or
blank `url` raise `RuntimeError`; otherwise the parsed configuration is
returned. -/
def getConfig : Option JValue → Except (List Char) JValue
  | none => Except.error (S "Failed to read config.json")
  | some cfg =>
    match objGet cfg (S "url") with
    | some (.str u) =>
      if pyStrip u = [] then Except.error configUrlErrMsg else Except.ok cfg
    | _ => Except.error configUrlErrMsg

/-- `config["url"]` (total accessor; `getConfig` guarantees a string). -/
def configUrl (cfg : JValue) : List Char :=
  match objGet cfg (S "url") with
  | some (.str u) => u
  | _ => []

/-- `config.get("titleMaxLength", 100)` (restricted to integer values,
see `envOk`). -/
def configTitleMax (cfg : JValue) : Int :=
  match objGet cfg (S "titleMaxLength") with
  | some (.num n) => n
  | _ => 100

/-- `config.get("descriptionMaxLength", 500)` (restricted to integer
values, see `envOk`). -/
def configDescMax (cfg : JValue) : Int :=
  match objGet cfg (S "descriptionMaxLength") with
  | some (.num n) => n
  | _ => 500

/-- Identity resolution for one package (lines 160-176 of the source):
an existing `autogen_id` file is read and trimmed and never rewritten; a
missing one is created from a fresh UUID.  `wrote` records whether the
file was created, `fileContent` is the file's content afterwards. -/
structure IdentityResult where
  packageId : Option (List Char)
  fileContent : Option (List Char)
  wrote : Bool
  nextCounter : Nat

/-- Resolve a package identity from the sibling `autogen_id` file. -/
def resolveIdentity (uuidGen : Nat → List Char) (counter : Nat)
    (autogenId : Option (List Char)) : IdentityResult :=
  match autogenId with
  | some content => ⟨some (pyStrip content), some content, false, counter⟩
  | none =>
    let fresh := uuidGen counter
    ⟨some fresh, some (fresh ++ ['\n']), true, counter + 1⟩

/-- The `Missing or empty autogen_id` message. -/
def missingIdMsg (label : List Char) : List Char :=
  (S "ERROR: Missing or empty autogen_id in ") ++ label ++ (S ".")

/-- The `Duplicate id` message. -/
def dupIdMsg (i label : List Char) : List Char :=
  (S "ERROR: Duplicate id (") ++ formatValue (.str i) ++ (S ") in ") ++ label ++ (S ".")

/-- The empty/duplicate identity checks of lines 178-186: a falsy id is
reported; otherwise a duplicate is reported and the id is registered as
seen either way. -/
def idCheck (packageId : Option (List Char)) (seen : List (List Char))
    (label : List Char) : List (List Char) × List (List Char) :=
  match packageId with
  | none => ([missingIdMsg label], seen)
  | some i =>
    if i = [] then ([missingIdMsg label], seen)
    else
      ((if seen.contains i then [dupIdMsg i label] else []),
        if seen.contains i then seen else i :: seen)

/-- `thumbnail` validation (lines 188-200). -/
def checkThumbnail (files : List (List Char)) (v : Option JValue)
    (label : List Char) : List (List Char) :=
  match v with
  | some (.str t) =>
    if pyStrip t = [] then
      [(S "ERROR: Missing or invalid thumbnail (") ++ formatOpt v
        ++ (S ") in ") ++ label ++ (S ".")]
    else if files.contains t then []
    else
      [(S "ERROR: Thumbnail not found (") ++ formatValue (.str t)
        ++ (S ") in ") ++ label ++ (S ".")]
  | _ =>
    [(S "ERROR: Missing or invalid thumbnail (") ++ formatOpt v
      ++ (S ") in ") ++ label ++ (S ".")]

/-- Validation of one `images` entry (the body of the loop in lines
214-226). -/
def checkImageEntry (files : List (List Char)) (image : JValue)
    (label : List Char) : List (List Char) :=
  match image with
  | .str s =>
    if pyStrip s = [] then
      [(S "ERROR: Invalid image entry (") ++ formatValue image
        ++ (S ") in ") ++ label ++ (S ".")]
    else if files.contains s then []
    else
      [(S "ERROR: Image not found (") ++ formatValue (.str s)
        ++ (S ") in ") ++ label ++ (S ".")]
  | _ =>
    [(S "ERROR: Invalid image entry (") ++ formatValue image
      ++ (S ") in ") ++ label ++ (S ".")]

/-- `images` validation (lines 202-226). -/
def checkImages (files : List (List Char)) (v : Option JValue)
    (label : List Char) : List (List Char) :=
  match v with
  | some (.arr items) =>
    if items.isEmpty then
      [(S "ERROR: Missing or invalid images list (") ++ formatOpt v
        ++ (S ") in ") ++ label ++ (S ".")]
    else
      (if 8 < items.length then
        [(S "ERROR: Too many images (len=") ++ natStr items.length
          ++ (S ", limit=8) in ") ++ label ++ (S ".")]
      else [])
        ++ items.flatMap (fun image => checkImageEntry files image label)
  | _ =>
    [(S "ERROR: Missing or invalid images list (") ++ formatOpt v
      ++ (S ") in ") ++ label ++ (S ".")]

/-- `repositoryURL` validation (lines 228-251) on inputs where the
`urlparse` call of line 235 returns.  On a raising input the real
program dies with the exception instead of reporting anything; that path
is modelled by `repoUrlRaises` and `processPackageE` below, which abort
before consulting this function, so the `.error` branch here is
unreachable in the faithful composition (its value is immaterial
there). -/
def checkRepositoryUrl (urlExists : List Char → Bool) (v : Option JValue)
    (label : List Char) : List (List Char) :=
  match v with
  | some (.str u) =>
    if pyStrip u = [] then
      [(S "ERROR: Missing or invalid repositoryURL (") ++ formatOpt v
        ++ (S ") in ") ++ label ++ (S ".")]
    else
      match pyUrlparse u with
      | .error _ =>
        [(S "ERROR: repositoryURL must be http/https (") ++ formatValue (.str u)
          ++ (S ") in ") ++ label ++ (S ".")]
      | .ok parsed =>
        if ¬ (parsed.scheme = S "http" ∨ parsed.scheme = S "https") then
          [(S "ERROR: repositoryURL must be http/https (") ++ formatValue (.str u)
            ++ (S ") in ") ++ label ++ (S ".")]
        else if ¬ endsWithSeq (S "github.com") parsed.netloc then
          [(S "ERROR: repositoryURL must point to github.com (") ++ formatValue (.str u)
            ++ (S ") in ") ++ label ++ (S ".")]
        else if ¬ urlExists u then
          [(S "ERROR: repositoryURL is not reachable (") ++ formatValue (.str u)
            ++ (S ") in ") ++ label ++ (S ".")]
        else []
  | _ =>
    [(S "ERROR: Missing or invalid repositoryURL (") ++ formatOpt v
      ++ (S ") in ") ++ label ++ (S ".")]

/-- A tag character: `[A-Za-z_]`. -/
def isTagChar (c : Char) : Bool :=
  ('A' ≤ c ∧ c ≤ 'Z') ∨ ('a' ≤ c ∧ c ≤ 'z') ∨ c = '_'

/-- `re.fullmatch(r"[A-Za-z_]+", tag)`: one or more tag characters. -/
def tagFullmatch (t : List Char) : Bool := ¬ t.isEmpty ∧ t.all isTagChar

/-- The `Missing or empty tags` message. -/
def tagsMissingMsg (v : Option JValue) (label : List Char) : List Char :=
  (S "ERROR: Missing or empty tags (") ++ formatOpt v ++ (S ") in ") ++ label ++ (S ".")

/-- The `Tags must not contain spaces` message. -/
def tagsSpacesMsg (tags label : List Char) : List Char :=
  (S "ERROR: Tags must not contain spaces (") ++ formatValue (.str tags)
    ++ (S ") in ") ++ label ++ (S ".")

/-- The `Invalid tag(s)` message, listing every offending segment. -/
def tagsInvalidMsg (invalid : List (List Char)) (label : List Char) : List Char :=
  (S "ERROR: Invalid tag(s) (") ++ formatValue (.arr (invalid.map .str))
    ++ (S ") in ") ++ label ++ (S ".")

/-- `tags` validation (lines 253-273). -/
def checkTags (v : Option JValue) (label : List Char) : List (List Char) :=
  match v with
  | some (.str tags) =>
    if pyStrip tags = [] then [tagsMissingMsg v label]
    else if tags.contains ' ' then [tagsSpacesMsg tags label]
    else
      let invalid := (List.splitOn ',' tags).filter (fun t => !tagFullmatch t)
      if invalid.isEmpty then [] else [tagsInvalidMsg invalid label]
  | _ => [tagsMissingMsg v label]

/-- `titleB64` validation (lines 275-296): base64-decode with
validation, UTF-8-decode, then compare the decoded length with the
configured maximum. -/
def checkTitleB64 (titleMax : Int) (v : Option JValue)
    (label : List Char) : List (List Char) :=
  match v with
  | some (.str t) =>
    if pyStrip t = [] then
      [(S "ERROR: Missing or invalid titleB64 (") ++ formatOpt v
        ++ (S ") in ") ++ label ++ (S ".")]
    else
      match (pyB64Decode t).bind utf8Decode with
      | some decoded =>
        if titleMax < (decoded.length : Int) then
          [(S "ERROR: title exceeds max chars (len=") ++ natStr decoded.length
            ++ (S ", limit=") ++ intStr titleMax ++ (S ") in ") ++ label ++ (S ".")]
        else []
      | none =>
        [(S "ERROR: Invalid base64 in titleB64 (") ++ formatValue (.str t)
          ++ (S ") in ") ++ label ++ (S ".")]
  | _ =>
    [(S "ERROR: Missing or invalid titleB64 (") ++ formatOpt v
      ++ (S ") in ") ++ label ++ (S ".")]

/-- `descriptionB64` validation (lines 298-319). -/
def checkDescriptionB64 (descMax : Int) (v : Option JValue)
    (label : List Char) : List (List Char) :=
  match v with
  | some (.str t) =>
    if pyStrip t = [] then
      [(S "ERROR: Missing or invalid descriptionB64 (") ++ formatOpt v
        ++ (S ") in ") ++ label ++ (S ".")]
    else
      match (pyB64Decode t).bind utf8Decode with
      | some decoded =>
        if descMax < (decoded.length : Int) then
          [(S "ERROR: description exceeds max chars (len=") ++ natStr decoded.length
            ++ (S ", limit=") ++ intStr descMax ++ (S ") in ") ++ label ++ (S ".")]
        else []
      | none =>
        [(S "ERROR: Invalid base64 in descriptionB64 (") ++ formatValue (.str t)
          ++ (S ") in ") ++ label ++ (S ".")]
  | _ =>
    [(S "ERROR: Missing or invalid descriptionB64 (") ++ formatOpt v
      ++ (S ") in ") ++ label ++ (S ".")]

/-- The six field validators in source order (lines 188-319), applied
to a parsed manifest.  Each validator receives only the field it
checks. -/
def validateFields (urlExists : List Char → Bool) (files : List (List Char))
    (titleMax descMax : Int) (manifest : JValue) (label : List Char) :
    List (List Char) :=
  checkThumbnail files (objGet manifest (S "thumbnail")) label
    ++ checkImages files (objGet manifest (S "images")) label
    ++ checkRepositoryUrl urlExists (objGet manifest (S "repositoryURL")) label
    ++ checkTags (objGet manifest (S "tags")) label
    ++ checkTitleB64 titleMax (objGet manifest (S "titleB64")) label
    ++ checkDescriptionB64 descMax (objGet manifest (S "descriptionB64")) label

/-- The URL a media name is rewritten to:
`f"{repo_base}packages{folder}/{name}"` with the name stripped and its
leading slashes removed. -/
def mediaUrl (repoBase folder name : List Char) : List Char :=
  repoBase ++ (S "packages") ++ folder ++ (S "/") ++ pyLstripSlash (pyStrip name)

/-- The effective media folder (lines 325-330): the manifest's stripped
`mediaFolder` when it is a non-blank string, normalised to start with
`/`; otherwise `/` followed by the package directory relative to the
packages root. -/
def effectiveFolder (manifest : JValue) (relDir : List Char) : List Char :=
  let folder :=
    match objGet manifest (S "mediaFolder") with
    | some (.str m) => pyStrip m
    | _ => []
  if folder = [] then (S "/") ++ relDir
  else if ¬ (S "/").isPrefixOf folder then (S "/") ++ folder
  else folder

/-- The manifest transformation of lines 321-351: set `id` and
`userName`, drop `mediaFolder`, rewrite every string entry of `images`
and a non-blank string `thumbnail` to absolute media URLs. -/
def transformManifest (repoBase : List Char) (manifest : JValue)
    (packageId : Option (List Char)) (userName relDir : List Char) : JValue :=
  let updated := objSet manifest (S "id")
    (match packageId with
     | some i => .str i
     | none => .null)
  let updated := objSet updated (S "userName") (.str userName)
  let folder := effectiveFolder updated relDir
  let updated := objPop updated (S "mediaFolder")
  let updated :=
    match objGet updated (S "images") with
    | some (.arr items) =>
      objSet updated (S "images") (.arr (items.map (fun image =>
        match image with
        | .str s => .str (mediaUrl repoBase folder s)
        | other => other)))
    | _ => updated
  match objGet updated (S "thumbnail") with
  | some (.str t) =>
    if pyStrip t ≠ [] then
      objSet updated (S "thumbnail") (.str (mediaUrl repoBase folder t))
    else updated
  | _ => updated

/-- The accumulator state threaded through the scan loop of `main`:
accumulated error lines, transformed records, the set of ids seen this
run, and the number of fresh UUIDs consumed so far. -/
structure ScanState where
  errors : List (List Char)
  manifests : List JValue
  seenIds : List (List Char)
  counter : Nat

/-- The `Invalid JSON syntax` message for an unparseable manifest. -/
def jsonErrMsg (label : List Char) (line col : Nat) : List Char :=
  (S "ERROR: Invalid JSON syntax in ") ++ label ++ (S " (line ")
    ++ natStr line ++ (S ", column ") ++ natStr col ++ (S ").")

/-- The per-package error lines produced by one loop iteration, in
source order: identity errors, then the six field validators. -/
def packageErrors (urlExists : List Char → Bool) (uuidGen : Nat → List Char)
    (titleMax descMax : Int) (st : ScanState) (pkg : PackageSrc) :
    List (List Char) :=
  let label := packageLabel pkg
  match pkg.manifestData with
  | .error lc => [jsonErrMsg label lc.1 lc.2]
  | .ok manifest =>
    let idr := resolveIdentity uuidGen st.counter pkg.autogenId
    (idCheck idr.packageId st.seenIds label).1
      ++ validateFields urlExists pkg.files titleMax descMax manifest label

/-- One iteration of the scan loop of `main` (lines 141-353) on inputs
where the `urlparse` call of line 235 returns: parse failure records an
error and skips the rest (`continue`); otherwise identity resolution,
the duplicate check, all field validators and the transformation run,
and the transformed record is appended.  `processPackageE` below is the
body including the line-235 raise. -/
def processPackage (urlExists : List Char → Bool) (uuidGen : Nat → List Char)
    (repoBase : List Char) (titleMax descMax : Int) (st : ScanState)
    (pkg : PackageSrc) : ScanState :=
  let label := packageLabel pkg
  match pkg.manifestData with
  | .error lc => { st with errors := st.errors ++ [jsonErrMsg label lc.1 lc.2] }
  | .ok manifest =>
    let idr := resolveIdentity uuidGen st.counter pkg.autogenId
    let idStep := idCheck idr.packageId st.seenIds label
    let record := transformManifest repoBase manifest idr.packageId
      (userNameFromPath pkg) (relPackageDir pkg)
    { errors := st.errors ++ idStep.1
        ++ validateFields urlExists pkg.files titleMax descMax manifest label,
      manifests := st.manifests ++ [record],
      seenIds := idStep.2,
      counter := idr.nextCounter }

/-- The scan loop folded over the (sorted) package list. -/
def scanFold (urlExists : List Char → Bool) (uuidGen : Nat → List Char)
    (repoBase : List Char) (titleMax descMax : Int) :
    ScanState → List PackageSrc → ScanState
  | st, [] => st
  | st, p :: ps =>
    scanFold urlExists uuidGen repoBase titleMax descMax
      (processPackage urlExists uuidGen repoBase titleMax descMax st p) ps

/-- The initial scan state. -/
def initState : ScanState := ⟨[], [], [], 0⟩

/-- Lexicographic character-list comparison, the order in which
`sorted()` arranges POSIX path objects (string comparison). -/
def chLe : List Char → List Char → Bool
  | [], _ => true
  | _ :: _, [] => false
  | a :: as, b :: bs => if a = b then chLe as bs else decide (a < b)

/-- Ordering of discovered packages: by manifest file path. -/
def pkgLe (p q : PackageSrc) : Bool := chLe (packageLabel p) (packageLabel q)

/-- The files written on success: the catalog object, its gzip copy
(identical JSON content), and the fact that the timestamp file was
written (its clock-dependent content is not modelled). -/
structure RunOutputs where
  catalog : JValue
  gzCatalog : JValue
  versionWritten : Bool

/-- Result of one run of `main`: the lines printed to stdout, the
process exit code, the files written, and whether the run died with an
uncaught exception (a raise of `_build_raw_base` on the configured URL,
or the line-235 `ValueError` on a package's `repositoryURL`): the
interpreter then prints a traceback to stderr and exits non-zero,
nothing reaches stdout, and no file is written. -/
structure MainResult where
  printed : List (List Char)
  exitCode : Nat
  outputs : Option RunOutputs
  crashed : Bool

/-- Stable insertion: place `a` before the first element `b` with
`le a b`. -/
def insertLe {α : Type} (le : α → α → Bool) (a : α) : List α → List α
  | [] => [a]
  | b :: bs => if le a b then a :: b :: bs else b :: insertLe le a bs

/-- Stable insertion sort.  Python `sorted` is a stable sort, and any
two stable sorts of the same total preorder agree, so this models
`sorted(...)` extensionally. -/
def pySorted {α : Type} (le : α → α → Bool) : List α → List α
  | [] => []
  | a :: as => insertLe le a (pySorted le as)

/-- The sorted package list processed by `main`
(`sorted(packages_root.rglob("manifest.json"))`). -/
def sortedPkgs (env : Env) : List PackageSrc := pySorted pkgLe env.pkgs

/-- The final scan state of a run (assuming the run reaches the scan:
packages exist, the configuration loads and `_build_raw_base`
returns). -/
def runScan (env : Env) (cfg : JValue) (repoBase : List Char) : ScanState :=
  scanFold env.urlExists env.uuidGen repoBase
    (configTitleMax cfg) (configDescMax cfg) initState (sortedPkgs env)

/-- Model of `main` (lines 116-378) on inputs where the `urlparse` call
of line 235 returns on every scanned package; `mainRunE` below includes
that raise. -/
def mainRun (env : Env) : MainResult :=
  let pkgs := sortedPkgs env
  if pkgs.isEmpty then
    ⟨[S "ERROR: No manifest.json files found under packages/"], 1, none, false⟩
  else
    match getConfig env.configJson with
    | .error e => ⟨[(S "ERROR: ") ++ e], 1, none, false⟩
    | .ok cfg =>
      match buildRawBase (configUrl cfg) with
      | .error _ => ⟨[], 1, none, true⟩
      | .ok repoBase =>
        let finalSt := runScan env cfg repoBase
        if ¬ finalSt.errors.isEmpty then
          ⟨finalSt.errors, 1, none, false⟩
        else
          ⟨[S "SUCCESS: Database and version files generated.",
            S "SUCCESS: release/autogen_database.json",
            S "SUCCESS: release/autogen_database.json.gz",
            S "SUCCESS: release/autogen_version.txt"], 0,
            some ⟨.obj [(S "packages", .arr finalSt.manifests)],
              .obj [(S "packages", .arr finalSt.manifests)], true⟩, false⟩

/-- Key uniqueness of a dict's field list. -/
def keysNodup : List (List Char) → Bool
  | [] => true
  | k :: ks => !(ks.contains k) && keysNodup ks

/-- Success test for an `Except` value. -/
def exceptOk {e a : Type} : Except e a → Bool
  | .ok _ => true
  | .error _ => false

/-- The condition under which the `urlparse` call of line 235 raises: by
lines 228-234 the call is reached exactly when the `repositoryURL` field
is a string with non-blank strip, and it raises exactly when `urlparse`
rejects that string (`ValueError("Invalid IPv6 URL")` on an unmatched
square bracket in the netloc, e.g. `"http://["`). -/
def repoUrlRaises (v : Option JValue) : Bool :=
  match v with
  | some (.str u) => !decide (pyStrip u = []) && !exceptOk (pyUrlparse u)
  | _ => false

/-- A discovered package whose loop iteration does not hit the line-235
raise: its manifest fails to parse (the body exits at `continue` before
line 228), or its parsed `repositoryURL` does not raise. -/
def pkgNoRaise (p : PackageSrc) : Bool :=
  match p.manifestData with
  | .error _ => true
  | .ok m => !repoUrlRaises (objGet m (S "repositoryURL"))

/-- One iteration of the scan loop including the uncaught `ValueError`
of line 235 (mirroring lines 228-235): when the parsed manifest's
`repositoryURL` is a non-blank string that `urlparse` rejects, the
exception propagates out of `main` and the run aborts — the remaining
checks of this manifest never run and no further manifest is processed.
Otherwise the iteration is the total body `processPackage`.  The
mutations the body makes before line 235 are in-memory only (the
accumulated lists die with the process), so the aborting model need not
retain them. -/
def processPackageE (urlExists : List Char → Bool) (uuidGen : Nat → List Char)
    (repoBase : List Char) (titleMax descMax : Int) (st : ScanState)
    (pkg : PackageSrc) : Except (List Char) ScanState :=
  match pkg.manifestData with
  | .error _ =>
    .ok (processPackage urlExists uuidGen repoBase titleMax descMax st pkg)
  | .ok manifest =>
    match objGet manifest (S "repositoryURL") with
    | some (.str u) =>
      if pyStrip u = [] then
        .ok (processPackage urlExists uuidGen repoBase titleMax descMax st pkg)
      else
        match pyUrlparse u with
        | .error e => .error e
        | .ok _ =>
          .ok (processPackage urlExists uuidGen repoBase titleMax descMax st pkg)
    | _ => .ok (processPackage urlExists uuidGen repoBase titleMax descMax st pkg)

/-- The scan loop folded over the (sorted) package list, propagating the
line-235 exception: a raising package aborts the whole fold. -/
def scanFoldE (urlExists : List Char → Bool) (uuidGen : Nat → List Char)
    (repoBase : List Char) (titleMax descMax : Int) :
    ScanState → List PackageSrc → Except (List Char) ScanState
  | st, [] => .ok st
  | st, p :: ps =>
    match processPackageE urlExists uuidGen repoBase titleMax descMax st p with
    | .error e => .error e
    | .ok st2 => scanFoldE urlExists uuidGen repoBase titleMax descMax st2 ps

/-- The final scan state of a run under the exception-propagating loop
(`.error` when some package raised at line 235). -/
def runScanE (env : Env) (cfg : JValue) (repoBase : List Char) :
    Except (List Char) ScanState :=
  scanFoldE env.urlExists env.uuidGen repoBase
    (configTitleMax cfg) (configDescMax cfg) initState (sortedPkgs env)

/-- Model of `main` (lines 116-378) including the uncaught `ValueError`
of line 235: a raising `repositoryURL` kills the run mid-scan — nothing
reaches stdout, the interpreter exits non-zero with a traceback, and no
output file is written. -/
def mainRunE (env : Env) : MainResult :=
  let pkgs := sortedPkgs env
  if pkgs.isEmpty then
    ⟨[S "ERROR: No manifest.json files found under packages/"], 1, none, false⟩
  else
    match getConfig env.configJson with
    | .error e => ⟨[(S "ERROR: ") ++ e], 1, none, false⟩
    | .ok cfg =>
      match buildRawBase (configUrl cfg) with
      | .error _ => ⟨[], 1, none, true⟩
      | .ok repoBase =>
        match runScanE env cfg repoBase with
        | .error _ => ⟨[], 1, none, true⟩
        | .ok finalSt =>
          if ¬ finalSt.errors.isEmpty then
            ⟨finalSt.errors, 1, none, false⟩
          else
            ⟨[S "SUCCESS: Database and version files generated.",
              S "SUCCESS: release/autogen_database.json",
              S "SUCCESS: release/autogen_database.json.gz",
              S "SUCCESS: release/autogen_version.txt"], 0,
              some ⟨.obj [(S "packages", .arr finalSt.manifests)],
                .obj [(S "packages", .arr finalSt.manifests)], true⟩, false⟩

mutual

/-- A parsed JSON value represents what `json.load` can produce when the
program's dynamic typing stays inside the model: objects carry distinct
keys (Python dicts). -/
def jvWf : JValue → Bool
  | .obj fields => keysNodup (fields.map Prod.fst) && jvWfFields fields
  | .arr items => jvWfList items
  | _ => true

/-- Well-formedness of array items. -/
def jvWfList : List JValue → Bool
  | [] => true
  | v :: vs => jvWf v && jvWfList vs

/-- Well-formedness of object field values. -/
def jvWfFields : List (List Char × JValue) → Bool
  | [] => true
  | f :: fs => jvWf f.2 && jvWfFields fs

end

/-- A parsed manifest the model covers: a JSON object (a non-object
would make `manifest.get` raise `AttributeError`) with dict-like keys,
whose `repositoryURL`, when it is a non-blank string, parses without
`ValueError`. -/
def manifestOk (m : JValue) : Bool :=
  match m with
  | .obj _ =>
    jvWf m &&
      (match objGet m (S "repositoryURL") with
       | some (.str u) =>
         decide (pyStrip u = []) || exceptOk (pyUrlparse u)
       | _ => true)
  | _ => false

/-- A package the model covers. -/
def pkgOk (p : PackageSrc) : Bool :=
  match p.manifestData with
  | .error _ => true
  | .ok m => manifestOk m

/-- A configuration value the model covers: when the length limits are
present they are integers (a non-numeric limit would make the length
comparison raise `TypeError`). -/
def configOk (c : Option JValue) : Bool :=
  match c with
  | none => true
  | some cfg =>
    jvWf cfg &&
      (match objGet cfg (S "titleMaxLength") with
       | none => true
       | some (.num _) => true
       | some _ => false) &&
      (match objGet cfg (S "descriptionMaxLength") with
       | none => true
       | some (.num _) => true
       | some _ => false)

/-- An environment inside the model's coverage (see the module
comment). -/
def envOk (env : Env) : Bool :=
  env.pkgs.all pkgOk && configOk env.configJson

/-- The per-package error lists of a whole scan, one entry per
discovered package, threading the same state evolution as the scan
loop. -/
def scanErrLists (urlExists : List Char → Bool) (uuidGen : Nat → List Char)
    (repoBase : List Char) (titleMax descMax : Int) :
    ScanState → List PackageSrc → List (List (List Char))
  | _, [] => []
  | st, p :: ps =>
    packageErrors urlExists uuidGen titleMax descMax st p
      :: scanErrLists urlExists uuidGen repoBase titleMax descMax
        (processPackage urlExists uuidGen repoBase titleMax descMax st p) ps

/-- The records of a written catalog (`payload["packages"]`). -/
def catalogRecords (o : RunOutputs) : List JValue :=
  match objGet o.catalog (S "packages") with
  | some (.arr l) => l
  | _ => []

/-- The `id` field of an output record. -/
def recordId (r : JValue) : Option JValue := objGet r (S "id")

/-- The invariant maintained by the scan loop: while no error has been
recorded, the accumulated records carry non-null string ids that are
pairwise distinct and all registered in the seen set. -/
def scanIdInvariant (st : ScanState) : Prop :=
  st.errors = [] →
    ∃ ss : List (List Char),
      st.manifests.map recordId = ss.map (fun s => some (JValue.str s))
        ∧ ss.Nodup ∧ ∀ s ∈ ss, s ∈ st.seenIds

/-- A reusable concrete valid manifest for witnesses: every field
well-formed. -/
def wManifest (who pkg : String) : JValue :=
  .obj [(S "thumbnail", .str (S "thumb.png")),
        (S "images", .arr [.str (S "a.png")]),
        (S "repositoryURL", .str ((S "https://github.com/") ++ S who ++ (S "/") ++ S pkg)),
        (S "tags", .str (S "art,cool")),
        (S "titleB64", .str (S "aGVsbG8=")),
        (S "descriptionB64", .str (S "d29ybGQ="))]

/-- A reusable concrete package for witnesses. -/
def wPkg (who pkg : String) (idFile : Option String) : PackageSrc :=
  { relDirParts := [S who, S pkg],
    manifestData := .ok (wManifest who pkg),
    autogenId := idFile.map S,
    files := [S "thumb.png", S "a.png"] }

/-- A reusable concrete configuration for witnesses. -/
def wCfg : JValue := .obj [(S "url", .str (S "https://github.com/o/r"))]

/-- A reusable concrete environment for witnesses: two valid packages,
an always-true probe, deterministic UUIDs. -/
def wEnv : Env :=
  { pkgs := [wPkg "bob" "pkgY" none, wPkg "alice" "pkgX" (some "id-alice\n")],
    configJson := some wCfg,
    urlExists := fun _ => true,
    uuidGen := fun n => (S "uuid-") ++ natStr n }

/-- A concrete manifest whose `tags` value contains a space (fails tag
validation); every other field is valid. -/
def wManifestBadTags (who pkg : String) : JValue :=
  objSet (wManifest who pkg) (S "tags") (.str (S "bad tag"))

/-- A concrete package whose manifest fails tag validation. -/
def c9Pkg : PackageSrc :=
  { relDirParts := [S "alice", S "pkgX"],
    manifestData := .ok (wManifestBadTags "alice" "pkgX"),
    autogenId := some (S "id-alice\n"),
    files := [S "thumb.png", S "a.png"] }

/-- An environment holding only the tag-failing package. -/
def c9Env : Env :=
  { pkgs := [c9Pkg], configJson := some wCfg,
    urlExists := fun _ => true,
    uuidGen := fun n => (S "uuid-") ++ natStr n }

/-- A manifest that parses as JSON but whose `repositoryURL` value
`"http://["` makes `urlparse` raise at line 235 (unmatched bracket in
the netloc); its `tags` value also fails validation, exhibiting a check
that the crash suppresses. -/
def c3CrashManifest : JValue :=
  objSet (objSet (wManifest "alice" "pkgX")
      (S "repositoryURL") (.str (S "http://[")))
    (S "tags") (.str (S "bad tag"))

/-- The package holding the crashing manifest. -/
def c3CrashPkg : PackageSrc :=
  { relDirParts := [S "alice", S "pkgX"],
    manifestData := .ok c3CrashManifest,
    autogenId := some (S "id-alice\n"),
    files := [S "thumb.png", S "a.png"] }

/-- An environment whose first (path-sorted) package crashes the scan;
the second, fully valid package is never reached. -/
def c3Env : Env :=
  { pkgs := [c3CrashPkg, wPkg "bob" "pkgY" none],
    configJson := some wCfg,
    urlExists := fun _ => true,
    uuidGen := fun n => (S "uuid-") ++ natStr n }

/-! ## General lemmas about the embedding -/

/-- Stable insertion permutes nothing away. -/
theorem insertLe_perm {α : Type} (le : α → α → Bool) (a : α) (l : List α) :
    List.Perm (insertLe le a l) (a :: l) := by
  induction l with
  | nil => simp [insertLe]
  | cons b bs ih =>
    by_cases h : le a b
    · simp [insertLe, h]
    · simp only [insertLe, h, if_neg, Bool.false_eq_true, if_false]
      exact (ih.cons b).trans (List.Perm.swap a b bs)

/-- The insertion sort is a permutation of its input. -/
theorem pySorted_perm {α : Type} (le : α → α → Bool) (l : List α) :
    List.Perm (pySorted le l) l := by
  induction l with
  | nil => simp [pySorted]
  | cons a as ih =>
    exact (insertLe_perm le a (pySorted le as)).trans (ih.cons a)

/-- Sorting does not change emptiness of the package list. -/
theorem sortedPkgs_ne_nil (env : Env) (h : env.pkgs ≠ []) :
    sortedPkgs env ≠ [] := by
  intro hs
  apply h
  have := (pySorted_perm pkgLe env.pkgs).length_eq
  rw [show pySorted pkgLe env.pkgs = sortedPkgs env from rfl, hs] at this
  exact List.length_eq_zero.mp this.symm

/-- Characterization of a raising `repositoryURL` field: a string value
with non-blank strip that `urlparse` rejects. -/
theorem repoUrlRaises_true (v : Option JValue) (h : repoUrlRaises v = true) :
    ∃ u, v = some (.str u) ∧ pyStrip u ≠ []
      ∧ ∃ e, pyUrlparse u = Except.error e := by
  unfold repoUrlRaises at h
  cases v with
  | none => simp at h
  | some jv =>
    cases jv with
    | str u =>
      rw [Bool.and_eq_true] at h
      obtain ⟨h1, h2⟩ := h
      refine ⟨u, rfl, by simpa using h1, ?_⟩
      cases hp : pyUrlparse u with
      | ok parts => rw [hp] at h2; simp [exceptOk] at h2
      | error e => exact ⟨e, rfl⟩
    | null => simp at h
    | bool b => simp at h
    | num n => simp at h
    | arr l => simp at h
    | obj fs => simp at h

/-- The faithful loop body agrees with the total body on every package
that does not hit the line-235 raise. -/
theorem processPackageE_ok (ue : List Char → Bool) (ug : Nat → List Char)
    (rb : List Char) (tM dM : Int) (st : ScanState) (pkg : PackageSrc)
    (h : pkgNoRaise pkg = true) :
    processPackageE ue ug rb tM dM st pkg
      = Except.ok (processPackage ue ug rb tM dM st pkg) := by
  unfold pkgNoRaise at h
  unfold processPackageE
  cases hm : pkg.manifestData with
  | error lc => rfl
  | ok m =>
    rw [hm] at h
    have h2 : repoUrlRaises (objGet m (S "repositoryURL")) = false := by
      simpa using h
    dsimp only []
    cases hv : objGet m (S "repositoryURL") with
    | none => rfl
    | some jv =>
      rw [hv] at h2
      cases jv with
      | str u =>
        dsimp only []
        by_cases hstrip : pyStrip u = []
        · rw [if_pos hstrip]
        · rw [if_neg hstrip]
          cases hp : pyUrlparse u with
          | error e =>
            exfalso
            simp [repoUrlRaises, hp, exceptOk, hstrip] at h2
          | ok parts => rfl
      | null => rfl
      | bool b => rfl
      | num n => rfl
      | arr l => rfl
      | obj fs => rfl

/-- The exception-propagating fold agrees with the total fold over a
list of raise-free packages: the scan aborts nowhere. -/
theorem scanFoldE_ok (ue : List Char → Bool) (ug : Nat → List Char)
    (rb : List Char) (tM dM : Int) :
    ∀ (pkgs : List PackageSrc), pkgs.all pkgNoRaise = true →
    ∀ st, scanFoldE ue ug rb tM dM st pkgs
      = Except.ok (scanFold ue ug rb tM dM st pkgs) := by
  intro pkgs
  induction pkgs with
  | nil => intro _ st; rfl
  | cons p ps ih =>
    intro hall st
    rw [List.all_cons, Bool.and_eq_true] at hall
    simp only [scanFoldE, scanFold]
    rw [processPackageE_ok ue ug rb tM dM st p hall.1]
    exact ih hall.2 _

/-- On an environment none of whose packages raises at line 235, the
faithful model of `main` coincides with the total model. -/
theorem mainRunE_eq_mainRun (env : Env)
    (hall : env.pkgs.all pkgNoRaise = true) :
    mainRunE env = mainRun env := by
  have hs : (sortedPkgs env).all pkgNoRaise = true := by
    rw [List.all_eq_true] at hall ⊢
    intro p hp
    exact hall p ((pySorted_perm pkgLe env.pkgs).mem_iff.mp hp)
  have hr0 : ∀ cfg repoBase, runScanE env cfg repoBase
      = Except.ok (runScan env cfg repoBase) := by
    intro cfg repoBase
    exact scanFoldE_ok _ _ _ _ _ _ hs _
  by_cases hemp : (sortedPkgs env).isEmpty
  · simp [mainRunE, mainRun, hemp]
  · cases hcfg : getConfig env.configJson with
    | error e => simp [mainRunE, mainRun, hemp, hcfg]
    | ok cfg =>
      cases hbase : buildRawBase (configUrl cfg) with
      | error e => simp [mainRunE, mainRun, hemp, hcfg, hbase]
      | ok repoBase =>
        simp [mainRunE, mainRun, hemp, hcfg, hbase, hr0 cfg repoBase]

/-! ## C1: all-or-nothing output -/

/-- C1.  All-or-nothing output: whenever a run reaches the scan (some
manifest was discovered, the configuration loaded, and the raw base
computation returned), the catalog outputs are written exactly when the
error list accumulated over the whole scan is empty; and when that list
is non-empty, every accumulated message is printed, the exit status is
non-zero, and no output (catalog, gzip copy or timestamp) is written. -/
theorem c1_all_or_nothing (env : Env) (cfg : JValue) (repoBase : List Char)
    (hne : env.pkgs ≠ [])
    (hcfg : getConfig env.configJson = Except.ok cfg)
    (hbase : buildRawBase (configUrl cfg) = Except.ok repoBase) :
    ((mainRun env).outputs.isSome ↔ (runScan env cfg repoBase).errors = [])
      ∧ ((runScan env cfg repoBase).errors ≠ [] →
          (mainRun env).printed = (runScan env cfg repoBase).errors
            ∧ (mainRun env).exitCode = 1
            ∧ (mainRun env).outputs = none) := by
  have hs : (sortedPkgs env).isEmpty = false :=
    List.isEmpty_eq_false.mpr (sortedPkgs_ne_nil env hne)
  by_cases herr : (runScan env cfg repoBase).errors = []
  · constructor
    · simp [mainRun, hs, hcfg, hbase, herr]
    · intro h; exact absurd herr h
  · have herr2 : (runScan env cfg repoBase).errors.isEmpty = false :=
      List.isEmpty_eq_false.mpr herr
    constructor
    · simp [mainRun, hs, hcfg, hbase, herr2, herr]
    · intro h
      refine ⟨?_, ?_, ?_⟩ <;> simp [mainRun, hs, hcfg, hbase, herr2]

/-- Witness for C1: the hypotheses hold at the concrete environment. -/
theorem c1_all_or_nothing_witness :
    ((mainRun wEnv).outputs.isSome
        ↔ (runScan wEnv wCfg (S "https://raw.githubusercontent.com/o/r/refs/heads/main/")).errors = []) :=
  (c1_all_or_nothing wEnv wCfg _ (by simp [wEnv]) rfl rfl).1

/-! ## C3: validators run unconditionally, independently, accumulating -/

/-- One loop iteration appends exactly its package's error lines. -/
theorem processPackage_errors (urlExists : List Char → Bool)
    (uuidGen : Nat → List Char) (repoBase : List Char) (titleMax descMax : Int)
    (st : ScanState) (pkg : PackageSrc) :
    (processPackage urlExists uuidGen repoBase titleMax descMax st pkg).errors
      = st.errors ++ packageErrors urlExists uuidGen titleMax descMax st pkg := by
  cases h : pkg.manifestData with
  | error lc => simp [processPackage, packageErrors, h]
  | ok m => simp [processPackage, packageErrors, h]

/-- The scan accumulates exactly the concatenation of every package's
error lines. -/
theorem scanFold_errors (urlExists : List Char → Bool)
    (uuidGen : Nat → List Char) (repoBase : List Char) (titleMax descMax : Int)
    (st : ScanState) (pkgs : List PackageSrc) :
    (scanFold urlExists uuidGen repoBase titleMax descMax st pkgs).errors
      = st.errors
        ++ (scanErrLists urlExists uuidGen repoBase titleMax descMax st pkgs).flatten := by
  induction pkgs generalizing st with
  | nil => simp [scanFold, scanErrLists]
  | cons p ps ih =>
    simp only [scanFold, scanErrLists, List.flatten_cons]
    rw [ih, processPackage_errors, List.append_assoc]

/-- C3 counterexample, refuting the claim as stated: a parsed manifest
whose `repositoryURL` is `"http://["` raises an uncaught `ValueError` at
line 235, mid-validation.  First conjunct: the whole run on an
environment whose first path-sorted package holds that manifest dies
(nothing printed, exit 1, no output) — so a failure in one field did
suppress the checks on the other fields, their errors were never
reported, and the scan halted before the later fully valid `bob/pkgY`
package.  Second conjunct: the loop body on that package aborts with the
exception instead of accumulating errors.  Third conjunct: the same
manifest's tags check fails, exhibiting a suppressed validator. -/
theorem c3_counterexample :
    mainRunE c3Env = ⟨[], 1, none, true⟩
      ∧ processPackageE (fun _ => true) (fun n => (S "uuid-") ++ natStr n)
          (S "https://raw.githubusercontent.com/o/r/refs/heads/main/") 100 500
          initState c3CrashPkg = Except.error (S "Invalid IPv6 URL")
      ∧ checkTags (objGet c3CrashManifest (S "tags")) (packageLabel c3CrashPkg)
          ≠ [] :=
  ⟨rfl, rfl, by decide⟩

/-- C3 (amended).  For every parsed manifest whose `repositoryURL` does
not make the `urlparse` call of line 235 raise, field validation is
unconditional, independent and accumulating: the loop body returns
normally, and its error lines are exactly the identity errors followed
by the six field validators' results in source order, each validator
seeing only its own field (so a failure in one field cannot suppress
another field's checks); and over a scan of raise-free packages the loop
aborts nowhere — the faithful fold agrees with the total fold, whose
error list is the concatenation of one error list per discovered
manifest, so the scan never stops early. -/
theorem c3_validators_independent (urlExists : List Char → Bool)
    (uuidGen : Nat → List Char) (repoBase : List Char) (titleMax descMax : Int)
    (st : ScanState) (pkg : PackageSrc) (m : JValue) (pkgs : List PackageSrc)
    (hm : pkg.manifestData = Except.ok m)
    (hnr : pkgNoRaise pkg = true)
    (hall : pkgs.all pkgNoRaise = true) :
    processPackageE urlExists uuidGen repoBase titleMax descMax st pkg
        = Except.ok (processPackage urlExists uuidGen repoBase titleMax descMax st pkg)
      ∧ (packageErrors urlExists uuidGen titleMax descMax st pkg
        = (idCheck (resolveIdentity uuidGen st.counter pkg.autogenId).packageId
            st.seenIds (packageLabel pkg)).1
          ++ checkThumbnail pkg.files (objGet m (S "thumbnail")) (packageLabel pkg)
          ++ checkImages pkg.files (objGet m (S "images")) (packageLabel pkg)
          ++ checkRepositoryUrl urlExists (objGet m (S "repositoryURL")) (packageLabel pkg)
          ++ checkTags (objGet m (S "tags")) (packageLabel pkg)
          ++ checkTitleB64 titleMax (objGet m (S "titleB64")) (packageLabel pkg)
          ++ checkDescriptionB64 descMax (objGet m (S "descriptionB64")) (packageLabel pkg))
      ∧ scanFoldE urlExists uuidGen repoBase titleMax descMax st pkgs
          = Except.ok (scanFold urlExists uuidGen repoBase titleMax descMax st pkgs)
      ∧ (scanFold urlExists uuidGen repoBase titleMax descMax st pkgs).errors
          = st.errors
            ++ (scanErrLists urlExists uuidGen repoBase titleMax descMax st pkgs).flatten
      ∧ (scanErrLists urlExists uuidGen repoBase titleMax descMax st pkgs).length
          = pkgs.length := by
  refine ⟨processPackageE_ok _ _ _ _ _ _ _ hnr, ?_,
    scanFoldE_ok _ _ _ _ _ pkgs hall st, scanFold_errors _ _ _ _ _ _ _, ?_⟩
  · simp [packageErrors, hm, validateFields, List.append_assoc]
  · clear hall hnr hm
    induction pkgs generalizing st with
    | nil => simp [scanErrLists]
    | cons p ps ih => simp [scanErrLists, ih]

/-- Witness for C3 (amended) at a concrete package, state and scan. -/
theorem c3_validators_independent_witness :
    processPackageE (fun _ => true) (fun n => (S "uuid-") ++ natStr n)
        (S "https://raw.githubusercontent.com/o/r/refs/heads/main/") 100 500
        initState (wPkg "alice" "pkgX" none)
      = Except.ok (processPackage (fun _ => true) (fun n => (S "uuid-") ++ natStr n)
          (S "https://raw.githubusercontent.com/o/r/refs/heads/main/") 100 500
          initState (wPkg "alice" "pkgX" none))
      ∧ packageErrors (fun _ => true) (fun n => (S "uuid-") ++ natStr n) 100 500
        initState (wPkg "alice" "pkgX" none)
      = (idCheck (resolveIdentity (fun n => (S "uuid-") ++ natStr n)
            initState.counter (wPkg "alice" "pkgX" none).autogenId).packageId
          initState.seenIds (packageLabel (wPkg "alice" "pkgX" none))).1
        ++ checkThumbnail (wPkg "alice" "pkgX" none).files
            (objGet (wManifest "alice" "pkgX") (S "thumbnail"))
            (packageLabel (wPkg "alice" "pkgX" none))
        ++ checkImages (wPkg "alice" "pkgX" none).files
            (objGet (wManifest "alice" "pkgX") (S "images"))
            (packageLabel (wPkg "alice" "pkgX" none))
        ++ checkRepositoryUrl (fun _ => true)
            (objGet (wManifest "alice" "pkgX") (S "repositoryURL"))
            (packageLabel (wPkg "alice" "pkgX" none))
        ++ checkTags (objGet (wManifest "alice" "pkgX") (S "tags"))
            (packageLabel (wPkg "alice" "pkgX" none))
        ++ checkTitleB64 100 (objGet (wManifest "alice" "pkgX") (S "titleB64"))
            (packageLabel (wPkg "alice" "pkgX" none))
        ++ checkDescriptionB64 500 (objGet (wManifest "alice" "pkgX") (S "descriptionB64"))
            (packageLabel (wPkg "alice" "pkgX" none)) :=
  ⟨(c3_validators_independent (fun _ => true) (fun n => (S "uuid-") ++ natStr n)
      (S "https://raw.githubusercontent.com/o/r/refs/heads/main/") 100 500 initState
      (wPkg "alice" "pkgX" none) (wManifest "alice" "pkgX")
      [wPkg "bob" "pkgY" none] rfl (by decide) (by decide)).1,
    (c3_validators_independent (fun _ => true) (fun n => (S "uuid-") ++ natStr n)
      (S "https://raw.githubusercontent.com/o/r/refs/heads/main/") 100 500 initState
      (wPkg "alice" "pkgX" none) (wManifest "alice" "pkgX")
      [wPkg "bob" "pkgY" none] rfl (by decide) (by decide)).2.1⟩

/-! ## C4: identity resolution is idempotent -/

/-- Stripping is unaffected by appending a trailing whitespace
character. -/
theorem pyStrip_append_ws (x : List Char) (c : Char) (hc : isPyWs c = true) :
    pyStrip (x ++ [c]) = pyStrip x := by
  unfold pyStrip
  rw [List.dropWhile_append]
  by_cases h : (x.dropWhile isPyWs).isEmpty = true
  · rw [if_pos h, List.isEmpty_iff.mp h]
    simp [List.dropWhile, hc]
  · rw [if_neg h, List.reverse_append]
    simp [hc]

/-- C4.  Identity resolution is idempotent: an existing `autogen_id`
file is used (trimmed) as the ID and is never written (`wrote = false`,
content unchanged); only an absent file triggers generation and a write;
and resolving twice in a row — the second time against the file state
left by the first — yields the same ID, performs no write, and leaves
the file unchanged. -/
theorem c4_identity_idempotent (uuidGen uuidGen2 : Nat → List Char)
    (counter counter2 : Nat) (content : List Char) (fs : Option (List Char))
    (hws : pyStrip (uuidGen counter) = uuidGen counter) :
    (resolveIdentity uuidGen counter (some content)
        = ⟨some (pyStrip content), some content, false, counter⟩)
      ∧ (resolveIdentity uuidGen counter none
          = ⟨some (uuidGen counter), some (uuidGen counter ++ ['\n']), true,
              counter + 1⟩)
      ∧ ((resolveIdentity uuidGen2 counter2
            (resolveIdentity uuidGen counter fs).fileContent).packageId
          = (resolveIdentity uuidGen counter fs).packageId
        ∧ (resolveIdentity uuidGen2 counter2
            (resolveIdentity uuidGen counter fs).fileContent).wrote = false
        ∧ (resolveIdentity uuidGen2 counter2
            (resolveIdentity uuidGen counter fs).fileContent).fileContent
          = (resolveIdentity uuidGen counter fs).fileContent) := by
  refine ⟨rfl, rfl, ?_⟩
  cases fs with
  | some c0 => exact ⟨rfl, rfl, rfl⟩
  | none =>
    refine ⟨?_, rfl, rfl⟩
    show some (pyStrip (uuidGen counter ++ ['\n'])) = some (uuidGen counter)
    rw [pyStrip_append_ws _ _ (by decide), hws]

/-- Witness for C4 with a concrete generator and an absent file. -/
theorem c4_identity_idempotent_witness :
    (resolveIdentity (fun n => (S "u-") ++ natStr n) 0 none).packageId
        = some (S "u-0")
      ∧ (resolveIdentity (fun n => (S "u-") ++ natStr n) 5
          ((resolveIdentity (fun n => (S "u-") ++ natStr n) 0 none).fileContent)).packageId
        = (resolveIdentity (fun n => (S "u-") ++ natStr n) 0 none).packageId := by
  have h := c4_identity_idempotent (fun n => (S "u-") ++ natStr n)
    (fun n => (S "u-") ++ natStr n) 0 5 [] none (by decide)
  refine ⟨?_, h.2.2.1⟩
  rw [h.2.1]
  rfl

/-! ## C5: duplicate ids are reported; written catalogs have unique ids -/


/-! ## C5: duplicate ids are reported; written catalogs have unique ids -/

/-- Setting a key makes it readable. -/
theorem objGet_objSet_same (fs : List (List Char × JValue)) (k : List Char)
    (v : JValue) : objGet (objSet (.obj fs) k v) k = some v := by
  induction fs with
  | nil =>
    simp only [objSet, objSetFields, objGet, List.find?_cons, beq_self_eq_true]
    rfl
  | cons f rest ih =>
    obtain ⟨k0, w⟩ := f
    by_cases h : k0 = k
    · subst h
      simp only [objSet, objSetFields, if_true]
      simp only [objGet, List.find?_cons, beq_self_eq_true]
      rfl
    · have hb : (k0 == k) = false := beq_eq_false_iff_ne.mpr h
      simp only [objSet, objSetFields, if_neg h, objGet, List.find?_cons, hb]
      exact ih

/-- Setting one key leaves other keys' lookups unchanged (also on
non-objects, where setting is the identity). -/
theorem objGet_objSet_diff (j : JValue) (k k' : List Char) (v : JValue)
    (h : k' ≠ k) : objGet (objSet j k v) k' = objGet j k' := by
  cases j with
  | obj fs =>
    induction fs with
    | nil =>
      have hb : (k == k') = false := beq_eq_false_iff_ne.mpr (fun he => h he.symm)
      simp [objSet, objSetFields, objGet, List.find?_cons, hb]
    | cons f rest ih =>
      obtain ⟨k0, w⟩ := f
      by_cases h0 : k0 = k
      · subst h0
        have hb : (k0 == k') = false := beq_eq_false_iff_ne.mpr (fun he => h he.symm)
        simp [objSet, objSetFields, objGet, List.find?_cons, hb]
      · simp only [objSet, objSetFields, if_neg h0, objGet, List.find?_cons]
        by_cases hk : (k0 == k') = true
        · simp only [hk]
        · simp only [Bool.not_eq_true] at hk
          simp only [hk]
          exact ih
  | null => rfl
  | bool b => rfl
  | num n => rfl
  | str s => rfl
  | arr items => rfl

/-- Removing one key leaves other keys' lookups unchanged. -/
theorem objGet_objPop_diff (j : JValue) (k k' : List Char) (h : k' ≠ k) :
    objGet (objPop j k) k' = objGet j k' := by
  cases j with
  | obj fs =>
    induction fs with
    | nil => rfl
    | cons f rest ih =>
      obtain ⟨k0, w⟩ := f
      by_cases h0 : k0 = k
      · subst h0
        have hb : (k0 == k') = false := beq_eq_false_iff_ne.mpr (fun he => h he.symm)
        simp [objPop, objPopFields, objGet, List.find?_cons, hb]
      · simp only [objPop, objPopFields, if_neg h0, objGet, List.find?_cons]
        by_cases hk : (k0 == k') = true
        · simp only [hk]
        · simp only [Bool.not_eq_true] at hk
          simp only [hk]
          exact ih
  | null => rfl
  | bool b => rfl
  | num n => rfl
  | str s => rfl
  | arr items => rfl

/-- Writing `userName` does not disturb `id`. -/
theorem objGet_set_userName_id (j : JValue) (v : JValue) :
    objGet (objSet j (S "userName") v) (S "id") = objGet j (S "id") :=
  objGet_objSet_diff _ _ _ _ (by decide)

/-- Writing `images` does not disturb `id`. -/
theorem objGet_set_images_id (j : JValue) (v : JValue) :
    objGet (objSet j (S "images") v) (S "id") = objGet j (S "id") :=
  objGet_objSet_diff _ _ _ _ (by decide)

/-- Writing `thumbnail` does not disturb `id`. -/
theorem objGet_set_thumbnail_id (j : JValue) (v : JValue) :
    objGet (objSet j (S "thumbnail") v) (S "id") = objGet j (S "id") :=
  objGet_objSet_diff _ _ _ _ (by decide)

/-- Dropping `mediaFolder` does not disturb `id`. -/
theorem objGet_pop_mediaFolder_id (j : JValue) :
    objGet (objPop j (S "mediaFolder")) (S "id") = objGet j (S "id") :=
  objGet_objPop_diff _ _ _ (by decide)

/-- The transformed record of an object manifest carries exactly the
resolved id (`null` when the id could not be resolved). -/
theorem recordId_transform (rb : List Char) (fs : List (List Char × JValue))
    (pid : Option (List Char)) (un rd : List Char) :
    recordId (transformManifest rb (.obj fs) pid un rd)
      = some (match pid with
              | some i => JValue.str i
              | none => JValue.null) := by
  cases pid with
  | some i =>
    simp only [transformManifest, recordId]
    repeat' split
    all_goals
      simp only [objGet_set_thumbnail_id, objGet_set_images_id,
        objGet_pop_mediaFolder_id, objGet_set_userName_id, objGet_objSet_same]
  | none =>
    simp only [transformManifest, recordId]
    repeat' split
    all_goals
      simp only [objGet_set_thumbnail_id, objGet_set_images_id,
        objGet_pop_mediaFolder_id, objGet_set_userName_id, objGet_objSet_same]

/-- Boolean containment agrees with membership for id lists. -/
theorem contains_iff_mem_chars (l : List (List Char)) (a : List Char) :
    l.contains a = true ↔ a ∈ l := by
  simp [List.contains]

/-- One loop iteration preserves the id invariant. -/
theorem processPackage_invariant (ue : List Char → Bool) (ug : Nat → List Char)
    (rb : List Char) (tM dM : Int) (st : ScanState) (pkg : PackageSrc)
    (hok : pkgOk pkg = true) (hInv : scanIdInvariant st) :
    scanIdInvariant (processPackage ue ug rb tM dM st pkg) := by
  intro herr
  cases hm : pkg.manifestData with
  | error lc =>
    exfalso
    simp only [processPackage, hm] at herr
    exact List.append_ne_nil_of_right_ne_nil _ (by simp) herr
  | ok m =>
    simp only [processPackage, hm] at herr ⊢
    rw [List.append_assoc] at herr
    obtain ⟨herrSt, herrRest⟩ := List.append_eq_nil.mp herr
    obtain ⟨herrId, _⟩ := List.append_eq_nil.mp herrRest
    obtain ⟨ss, hmap, hnodup, hsub⟩ := hInv herrSt
    -- analyse the identity step
    cases hpid : (resolveIdentity ug st.counter pkg.autogenId).packageId with
    | none => exfalso; rw [hpid] at herrId; simp [idCheck] at herrId
    | some i =>
      rw [hpid] at herrId
      by_cases hie : i = []
      · exfalso; simp [idCheck, hie] at herrId
      · by_cases hseen : st.seenIds.contains i = true
        · exfalso
          simp [idCheck, hie] at herrId
          exact herrId ((contains_iff_mem_chars _ _).mp hseen)
        · have hniem : i ∉ st.seenIds := by
            intro hmem
            rw [(contains_iff_mem_chars _ _).mpr hmem] at hseen
            exact hseen rfl
          have hstep : idCheck (some i) st.seenIds (packageLabel pkg)
              = ([], i :: st.seenIds) := by
            simp [idCheck, hie, hniem]
          rw [hstep]
          have hok2 : manifestOk m = true := by
            simpa [pkgOk, hm] using hok
          obtain ⟨fs, rfl⟩ : ∃ fs, m = .obj fs := by
            cases m with
            | obj fs => exact ⟨fs, rfl⟩
            | null => exact absurd hok2 (by simp [manifestOk])
            | bool b => exact absurd hok2 (by simp [manifestOk])
            | num n => exact absurd hok2 (by simp [manifestOk])
            | str s2 => exact absurd hok2 (by simp [manifestOk])
            | arr a => exact absurd hok2 (by simp [manifestOk])
          refine ⟨ss ++ [i], ?_, ?_, ?_⟩
          · rw [List.map_append, List.map_append, hmap]
            simp [recordId_transform]
          · rw [List.nodup_append]
            refine ⟨hnodup, List.nodup_singleton i, ?_⟩
            intro a ha hai
            rw [List.mem_singleton] at hai
            subst hai
            exact hniem (hsub a ha)
          · intro s hs
            rcases List.mem_append.mp hs with h | h
            · exact List.mem_cons_of_mem _ (hsub s h)
            · rw [List.mem_singleton] at h
              subst h
              exact List.mem_cons_self _ _

/-- The whole scan preserves the id invariant. -/
theorem scanFold_invariant (ue : List Char → Bool) (ug : Nat → List Char)
    (rb : List Char) (tM dM : Int) (pkgs : List PackageSrc) (st : ScanState)
    (hok : pkgs.all pkgOk = true) (hInv : scanIdInvariant st) :
    scanIdInvariant (scanFold ue ug rb tM dM st pkgs) := by
  induction pkgs generalizing st with
  | nil => exact hInv
  | cons p ps ih =>
    rw [List.all_cons, Bool.and_eq_true] at hok
    exact ih _ hok.2 (processPackage_invariant ue ug rb tM dM st p hok.1 hInv)

/-- C5.  Duplicate ids: when a package's resolved id was already seen
this run, the duplicate-id error is emitted and the id stays
registered; the record is still appended (processing continues); and in
every catalog actually written the record ids are pairwise-distinct
strings. -/
theorem c5_duplicate_ids :
    (∀ (i : List Char) (seen : List (List Char)) (label : List Char),
        i ≠ [] → seen.contains i = true →
          (idCheck (some i) seen label).1 = [dupIdMsg i label]
            ∧ ((idCheck (some i) seen label).2).contains i = true)
      ∧ (∀ (ue : List Char → Bool) (ug : Nat → List Char) (rb : List Char)
          (tM dM : Int) (st : ScanState) (pkg : PackageSrc) (m : JValue),
          pkg.manifestData = Except.ok m →
          (processPackage ue ug rb tM dM st pkg).manifests
            = st.manifests ++ [transformManifest rb m
                (resolveIdentity ug st.counter pkg.autogenId).packageId
                (userNameFromPath pkg) (relPackageDir pkg)])
      ∧ (∀ (env : Env) (o : RunOutputs), envOk env = true →
          (mainRun env).outputs = some o →
          ∃ ss : List (List Char),
            (catalogRecords o).map recordId = ss.map (fun s => some (JValue.str s))
              ∧ ss.Nodup) := by
  refine ⟨?_, ?_, ?_⟩
  · intro i seen label hie hseen
    have hmem : i ∈ seen := (contains_iff_mem_chars _ _).mp hseen
    constructor
    · simp [idCheck, hie, hmem]
    · simp [idCheck, hie, hmem]
  · intro ue ug rb tM dM st pkg m hm
    simp [processPackage, hm]
  · intro env o hok hout
    simp only [mainRun] at hout
    by_cases h1 : (sortedPkgs env).isEmpty = true
    · rw [if_pos h1] at hout
      exact absurd hout (by simp)
    · rw [if_neg h1] at hout
      cases hcfg : getConfig env.configJson with
      | error e =>
        simp only [hcfg] at hout
        exact absurd hout (by simp)
      | ok cfg =>
        simp only [hcfg] at hout
        cases hbase : buildRawBase (configUrl cfg) with
        | error e =>
          simp only [hbase] at hout
          exact absurd hout (by simp)
        | ok repoBase =>
          simp only [hbase] at hout
          by_cases herrs : (runScan env cfg repoBase).errors.isEmpty = true
          · rw [if_neg (not_not_intro herrs)] at hout
            have hinv : scanIdInvariant (runScan env cfg repoBase) := by
              apply scanFold_invariant
              · rw [List.all_eq_true]
                intro p hp
                rw [envOk, Bool.and_eq_true, List.all_eq_true] at hok
                exact hok.1 p ((pySorted_perm pkgLe env.pkgs).mem_iff.mp hp)
              · intro _
                exact ⟨[], by simp [initState], List.nodup_nil, by simp⟩
            have herrs2 : (runScan env cfg repoBase).errors = [] :=
              List.isEmpty_iff.mp herrs
            obtain ⟨ss, hmap, hnodup, _⟩ := hinv herrs2
            refine ⟨ss, ?_, hnodup⟩
            simp only [] at hout
            have ho : o = ⟨.obj [(S "packages", .arr (runScan env cfg repoBase).manifests)],
                .obj [(S "packages", .arr (runScan env cfg repoBase).manifests)], true⟩ := by
              cases hout
              rfl
            rw [ho]
            show ((runScan env cfg repoBase).manifests).map recordId = _
            exact hmap
          · rw [if_pos herrs] at hout
            exact absurd hout (by simp)

/-- Witness for C5: a concrete duplicate id is reported and stays
registered. -/
theorem c5_duplicate_ids_witness :
    (idCheck (some (S "id-x")) [S "id-x"] (S "L")).1
        = [dupIdMsg (S "id-x") (S "L")]
      ∧ ((idCheck (some (S "id-x")) [S "id-x"] (S "L")).2).contains (S "id-x")
        = true :=
  c5_duplicate_ids.1 (S "id-x") [S "id-x"] (S "L") (by decide) (by decide)

/-! ## C6: the transformed output record -/

/-- A key absent from the field list is not found. -/
theorem objGet_none_of_not_key (fields : List (List Char × JValue)) (k : List Char)
    (h : k ∉ fields.map Prod.fst) : objGet (.obj fields) k = none := by
  induction fields with
  | nil => rfl
  | cons f rest ih =>
    obtain ⟨k0, w⟩ := f
    rw [List.map_cons, List.mem_cons] at h
    push_neg at h
    have hb : (k0 == k) = false := beq_eq_false_iff_ne.mpr (fun he => h.1 he.symm)
    simp only [objGet, List.find?_cons, hb]
    exact ih h.2

/-- The boolean key-uniqueness test agrees with `Nodup`. -/
theorem keysNodup_iff (l : List (List Char)) : keysNodup l = true ↔ l.Nodup := by
  induction l with
  | nil => simp [keysNodup]
  | cons k ks ih =>
    simp [keysNodup, ih, List.nodup_cons]

/-- Setting a key either keeps the key list or appends the new key. -/
theorem keys_objSetFields (fields : List (List Char × JValue)) (k : List Char)
    (v : JValue) :
    (objSetFields fields k v).map Prod.fst = fields.map Prod.fst
      ∨ (objSetFields fields k v).map Prod.fst = fields.map Prod.fst ++ [k] := by
  induction fields with
  | nil => right; rfl
  | cons f rest ih =>
    obtain ⟨k0, w⟩ := f
    by_cases h : k0 = k
    · left; simp [objSetFields, h]
    · rcases ih with ih | ih
      · left; simp [objSetFields, h, ih]
      · right; simp [objSetFields, h, ih]

/-- Setting a key preserves key uniqueness. -/
theorem nodup_keys_objSetFields (fields : List (List Char × JValue)) (k : List Char)
    (v : JValue) (h : (fields.map Prod.fst).Nodup) :
    ((objSetFields fields k v).map Prod.fst).Nodup := by
  induction fields with
  | nil => simp [objSetFields]
  | cons f rest ih =>
    obtain ⟨k0, w⟩ := f
    rw [List.map_cons, List.nodup_cons] at h
    by_cases he : k0 = k
    · simp only [objSetFields, if_pos he, List.map_cons, List.nodup_cons]
      exact ⟨h.1, h.2⟩
    · simp only [objSetFields, if_neg he, List.map_cons, List.nodup_cons]
      refine ⟨?_, ih h.2⟩
      intro hmem
      rcases keys_objSetFields rest k v with hk | hk
      · rw [hk] at hmem; exact h.1 hmem
      · rw [hk, List.mem_append, List.mem_singleton] at hmem
        rcases hmem with hmem | hmem
        · exact h.1 hmem
        · exact he hmem

/-- After popping a key from a dict-like object the key is gone. -/
theorem objGet_objPop_same (fields : List (List Char × JValue)) (k : List Char)
    (h : (fields.map Prod.fst).Nodup) :
    objGet (objPop (.obj fields) k) k = none := by
  induction fields with
  | nil => rfl
  | cons f rest ih =>
    obtain ⟨k0, w⟩ := f
    rw [List.map_cons, List.nodup_cons] at h
    by_cases he : k0 = k
    · simp only [objPop, objPopFields, if_pos he]
      subst he
      exact objGet_none_of_not_key rest k0 h.1
    · have hb : (k0 == k) = false := beq_eq_false_iff_ne.mpr he
      simp only [objPop, objPopFields, if_neg he, objGet, List.find?_cons, hb]
      exact ih h.2

/-- Setting on an object produces an object. -/
theorem objSet_obj (fs : List (List Char × JValue)) (k : List Char) (v : JValue) :
    objSet (.obj fs) k v = .obj (objSetFields fs k v) := rfl

/-- Popping on an object produces an object. -/
theorem objPop_obj (fs : List (List Char × JValue)) (k : List Char) :
    objPop (.obj fs) k = .obj (objPopFields fs k) := rfl

/-- Field-level specification of the transformer on a dict-like
manifest with a non-blank string thumbnail and an array of images:
`userName` is set, `mediaFolder` is removed, and the thumbnail and every
string image entry are rewritten to media URLs rooted at the effective
folder of the raw manifest. -/
theorem transform_fields_spec (rb un rd t : List Char)
    (fs : List (List Char × JValue)) (imgs : List JValue)
    (pid : Option (List Char))
    (hkeys : (fs.map Prod.fst).Nodup)
    (hth : objGet (.obj fs) (S "thumbnail") = some (.str t))
    (hts : pyStrip t ≠ [])
    (himgs : objGet (.obj fs) (S "images") = some (.arr imgs)) :
    objGet (transformManifest rb (.obj fs) pid un rd) (S "userName")
        = some (.str un)
      ∧ objGet (transformManifest rb (.obj fs) pid un rd) (S "mediaFolder") = none
      ∧ objGet (transformManifest rb (.obj fs) pid un rd) (S "thumbnail")
          = some (.str (mediaUrl rb (effectiveFolder (.obj fs) rd) t))
      ∧ objGet (transformManifest rb (.obj fs) pid un rd) (S "images")
          = some (.arr (imgs.map (fun image =>
              match image with
              | JValue.str s =>
                JValue.str (mediaUrl rb (effectiveFolder (.obj fs) rd) s)
              | other => other))) := by
  simp only [transformManifest]
  generalize (match pid with
    | some i => JValue.str i
    | none => JValue.null) = pidv
  have hfold : effectiveFolder (objSet (objSet (.obj fs) (S "id") pidv)
      (S "userName") (.str un)) rd = effectiveFolder (.obj fs) rd := by
    unfold effectiveFolder
    rw [objGet_objSet_diff _ _ _ _ (by decide), objGet_objSet_diff _ _ _ _ (by decide)]
  have himg2 : objGet (objPop (objSet (objSet (.obj fs) (S "id") pidv)
      (S "userName") (.str un)) (S "mediaFolder")) (S "images") = some (.arr imgs) := by
    rw [objGet_objPop_diff _ _ _ (by decide), objGet_objSet_diff _ _ _ _ (by decide),
      objGet_objSet_diff _ _ _ _ (by decide)]
    exact himgs
  simp only [himg2, hfold]
  have hth2 : objGet (objSet (objPop (objSet (objSet (.obj fs) (S "id") pidv)
      (S "userName") (.str un)) (S "mediaFolder")) (S "images")
        (.arr (imgs.map (fun image =>
          match image with
          | JValue.str s => JValue.str (mediaUrl rb (effectiveFolder (.obj fs) rd) s)
          | other => other)))) (S "thumbnail") = some (.str t) := by
    rw [objGet_objSet_diff _ _ _ _ (by decide), objGet_objPop_diff _ _ _ (by decide),
      objGet_objSet_diff _ _ _ _ (by decide), objGet_objSet_diff _ _ _ _ (by decide)]
    exact hth
  simp only [hth2]
  rw [if_pos hts]
  refine ⟨?_, ?_, ?_, ?_⟩
  · rw [objGet_objSet_diff _ _ _ _ (by decide), objGet_objSet_diff _ _ _ _ (by decide),
      objGet_objPop_diff _ _ _ (by decide), objSet_obj, objGet_objSet_same]
  · rw [objGet_objSet_diff _ _ _ _ (by decide), objGet_objSet_diff _ _ _ _ (by decide),
      objSet_obj, objSet_obj, objGet_objPop_same]
    exact nodup_keys_objSetFields _ _ _ (nodup_keys_objSetFields _ _ _ hkeys)
  · rw [objSet_obj, objSet_obj, objPop_obj, objSet_obj, objGet_objSet_same]
  · rw [objGet_objSet_diff _ _ _ _ (by decide), objSet_obj, objSet_obj, objPop_obj,
      objGet_objSet_same]

/-- C6.  For every processed manifest (a parsed dict with a non-blank
string thumbnail and an images array, lying in a subdirectory), the
appended output record's `userName` is the first path segment of the
manifest's directory under the packages root, `mediaFolder` is removed,
and the thumbnail and every string entry of `images` are rewritten to
`<rawBase>packages<folder>/<name>` (leading slashes stripped from the
stripped name), where `<folder>` is the manifest's non-empty
`mediaFolder` normalised to start with `/`, else `/` followed by the
package directory relative to the packages root. -/
theorem c6_transform_output (ue : List Char → Bool) (ug : Nat → List Char)
    (rb : List Char) (tM dM : Int) (st : ScanState) (pkg : PackageSrc)
    (fs : List (List Char × JValue)) (t : List Char) (imgs : List JValue)
    (hm : pkg.manifestData = Except.ok (.obj fs))
    (hne : pkg.relDirParts ≠ [])
    (hkeys : (fs.map Prod.fst).Nodup)
    (hth : objGet (.obj fs) (S "thumbnail") = some (.str t))
    (hts : pyStrip t ≠ [])
    (himgs : objGet (.obj fs) (S "images") = some (.arr imgs)) :
    ((processPackage ue ug rb tM dM st pkg).manifests
        = st.manifests
          ++ [transformManifest rb (.obj fs)
              (resolveIdentity ug st.counter pkg.autogenId).packageId
              (userNameFromPath pkg) (relPackageDir pkg)])
      ∧ objGet (transformManifest rb (.obj fs)
            (resolveIdentity ug st.counter pkg.autogenId).packageId
            (userNameFromPath pkg) (relPackageDir pkg)) (S "userName")
          = some (.str (pkg.relDirParts.headD []))
      ∧ objGet (transformManifest rb (.obj fs)
            (resolveIdentity ug st.counter pkg.autogenId).packageId
            (userNameFromPath pkg) (relPackageDir pkg)) (S "mediaFolder") = none
      ∧ objGet (transformManifest rb (.obj fs)
            (resolveIdentity ug st.counter pkg.autogenId).packageId
            (userNameFromPath pkg) (relPackageDir pkg)) (S "thumbnail")
          = some (.str (mediaUrl rb (effectiveFolder (.obj fs) (relPackageDir pkg)) t))
      ∧ objGet (transformManifest rb (.obj fs)
            (resolveIdentity ug st.counter pkg.autogenId).packageId
            (userNameFromPath pkg) (relPackageDir pkg)) (S "images")
          = some (.arr (imgs.map (fun image =>
              match image with
              | JValue.str s =>
                JValue.str (mediaUrl rb (effectiveFolder (.obj fs) (relPackageDir pkg)) s)
              | other => other))) := by
  have hun : userNameFromPath pkg = pkg.relDirParts.headD [] := by
    unfold userNameFromPath
    cases hp : pkg.relDirParts with
    | nil => exact absurd hp hne
    | cons a l => rfl
  obtain ⟨w1, w2, w3, w4⟩ := transform_fields_spec rb (userNameFromPath pkg)
    (relPackageDir pkg) t fs imgs
    (resolveIdentity ug st.counter pkg.autogenId).packageId hkeys hth hts himgs
  exact ⟨by simp [processPackage, hm], by rw [← hun]; exact w1, w2, w3, w4⟩

/-- Witness for C6 at a concrete package. -/
theorem c6_transform_output_witness :
    (processPackage (fun _ => true) (fun n => (S "u-") ++ natStr n)
        (S "https://rb/") 100 500 initState (wPkg "alice" "pkgX" (some "id1\n"))).manifests
      = initState.manifests
        ++ [transformManifest (S "https://rb/") (wManifest "alice" "pkgX")
            (resolveIdentity (fun n => (S "u-") ++ natStr n) initState.counter
              (wPkg "alice" "pkgX" (some "id1\n")).autogenId).packageId
            (userNameFromPath (wPkg "alice" "pkgX" (some "id1\n")))
            (relPackageDir (wPkg "alice" "pkgX" (some "id1\n")))] :=
  (c6_transform_output (fun _ => true) (fun n => (S "u-") ++ natStr n)
    (S "https://rb/") 100 500 initState (wPkg "alice" "pkgX" (some "id1\n"))
    [(S "thumbnail", .str (S "thumb.png")),
     (S "images", .arr [.str (S "a.png")]),
     (S "repositoryURL", .str ((S "https://github.com/") ++ S "alice" ++ (S "/") ++ S "pkgX")),
     (S "tags", .str (S "art,cool")),
     (S "titleB64", .str (S "aGVsbG8=")),
     (S "descriptionB64", .str (S "d29ybGQ="))]
    (S "thumb.png") [JValue.str (S "a.png")]
    rfl (by decide) (by decide) rfl (by decide) rfl).1

/-! ## C7: tag validation -/

/-- Boolean character containment agrees with membership. -/
theorem contains_char_iff_mem (l : List Char) (c : Char) :
    l.contains c = true ↔ c ∈ l := by
  simp [List.contains]

/-- Unfolding of `checkTags` on a string value. -/
theorem checkTags_str (s label : List Char) :
    checkTags (some (.str s)) label
      = if pyStrip s = [] then [tagsMissingMsg (some (.str s)) label]
        else if s.contains ' ' = true then [tagsSpacesMsg s label]
        else if ((List.splitOn ',' s).filter (fun t => !tagFullmatch t)).isEmpty = true
          then []
        else [tagsInvalidMsg ((List.splitOn ',' s).filter (fun t => !tagFullmatch t))
          label] := rfl

/-- C7.  Tag validation fails exactly when the field is missing,
non-string or blank, or the string contains a space, or some
comma-separated segment fails the `[A-Za-z_]+` pattern; all offending
segments are reported together in one invalid-tag message; and on the
three concrete examples: `"a b,c"` fails, `"a,b_c,D"` passes, and
`"a,1b"` fails with exactly `"1b"` listed. -/
theorem c7_tags_validation :
    (∀ (v : Option JValue) (label : List Char),
        checkTags v label ≠ []
          ↔ (∀ s, v ≠ some (.str s))
            ∨ ∃ s, v = some (.str s)
                ∧ (pyStrip s = [] ∨ ' ' ∈ s
                   ∨ ∃ seg ∈ List.splitOn ',' s, tagFullmatch seg = false))
      ∧ (∀ (s label : List Char), pyStrip s ≠ [] → ¬ ' ' ∈ s →
          (List.splitOn ',' s).filter (fun t => !tagFullmatch t) ≠ [] →
          checkTags (some (.str s)) label
            = [tagsInvalidMsg
                ((List.splitOn ',' s).filter (fun t => !tagFullmatch t)) label])
      ∧ checkTags (some (.str (S "a b,c"))) (S "L") ≠ []
      ∧ checkTags (some (.str (S "a,b_c,D"))) (S "L") = []
      ∧ checkTags (some (.str (S "a,1b"))) (S "L")
          = [tagsInvalidMsg [S "1b"] (S "L")] := by
  have hstep : ∀ (s label : List Char), pyStrip s ≠ [] → ¬ ' ' ∈ s →
      (List.splitOn ',' s).filter (fun t => !tagFullmatch t) ≠ [] →
      checkTags (some (.str s)) label
        = [tagsInvalidMsg ((List.splitOn ',' s).filter (fun t => !tagFullmatch t))
            label] := by
    intro s label he hsp hf
    rw [checkTags_str, if_neg he,
      if_neg (fun hc => hsp ((contains_char_iff_mem s ' ').mp hc)),
      if_neg (fun hie => hf (List.isEmpty_iff.mp hie))]
  refine ⟨?_, hstep, by decide, by decide, by decide⟩
  intro v label
  cases v with
  | none =>
    apply iff_of_true
    · simp [checkTags]
    · left; intro s hs; exact Option.noConfusion hs
  | some j =>
    cases j with
    | str s =>
      by_cases he : pyStrip s = []
      · apply iff_of_true
        · rw [checkTags_str, if_pos he]; simp
        · right; exact ⟨s, rfl, Or.inl he⟩
      · by_cases hsp : s.contains ' ' = true
        · apply iff_of_true
          · rw [checkTags_str, if_neg he, if_pos hsp]; simp
          · right
            exact ⟨s, rfl, Or.inr (Or.inl ((contains_char_iff_mem s ' ').mp hsp))⟩
        · have hsp2 : ¬ ' ' ∈ s := fun hm =>
            hsp ((contains_char_iff_mem s ' ').mpr hm)
          by_cases hf : (List.splitOn ',' s).filter (fun t => !tagFullmatch t) = []
          · apply iff_of_false
            · rw [checkTags_str, if_neg he, if_neg hsp,
                if_pos (by rw [hf]; rfl)]
              simp
            · intro h
              rcases h with h | ⟨s2, hs2, hc⟩
              · exact h s rfl
              · obtain rfl : s2 = s := by
                  injection hs2 with h2
                  injection h2 with h3
                  exact h3.symm
                rcases hc with hc | hc | ⟨seg, hseg, hfm⟩
                · exact he hc
                · exact hsp2 hc
                · have hall := List.filter_eq_nil_iff.mp hf seg hseg
                  rw [Bool.not_eq_true] at hall
                  rw [hfm] at hall
                  simp at hall
          · apply iff_of_true
            · rw [hstep s label he hsp2 hf]; simp
            · right
              refine ⟨s, rfl, Or.inr (Or.inr ?_)⟩
              rw [List.filter_eq_nil_iff] at hf
              push_neg at hf
              obtain ⟨seg, hseg, hp⟩ := hf
              refine ⟨seg, hseg, ?_⟩
              simpa using hp
    | null =>
      apply iff_of_true
      · simp [checkTags]
      · left; intro s hs; simp at hs
    | bool b =>
      apply iff_of_true
      · simp [checkTags]
      · left; intro s hs; simp at hs
    | num n =>
      apply iff_of_true
      · simp [checkTags]
      · left; intro s hs; simp at hs
    | arr a =>
      apply iff_of_true
      · simp [checkTags]
      · left; intro s hs; simp at hs
    | obj o =>
      apply iff_of_true
      · simp [checkTags]
      · left; intro s hs; simp at hs

/-- Witness for C7: the single-message branch at a concrete input. -/
theorem c7_tags_validation_witness :
    checkTags (some (.str (S "x,9"))) (S "L")
      = [tagsInvalidMsg
          ((List.splitOn ',' (S "x,9")).filter (fun t => !tagFullmatch t))
          (S "L")] :=
  c7_tags_validation.2.1 (S "x,9") (S "L") (by decide) (by decide) (by decide)

/-! ## C9: when the transformer runs -/

/-- C9 counterexample: a manifest that fails tag validation (the error
list of the scan holds exactly its tags error) is nevertheless
transformed — its output record is assembled.  This refutes the claim
that the transformer is invoked only after the manifest passed all
validation checks. -/
theorem c9_counterexample :
    (runScan c9Env wCfg (S "https://raw.githubusercontent.com/o/r/refs/heads/main/")).errors
        = [tagsSpacesMsg (S "bad tag") (packageLabel c9Pkg)]
      ∧ (runScan c9Env wCfg (S "https://raw.githubusercontent.com/o/r/refs/heads/main/")).manifests
        = [transformManifest (S "https://raw.githubusercontent.com/o/r/refs/heads/main/")
            (wManifestBadTags "alice" "pkgX") (some (S "id-alice"))
            (S "alice") (S "alice/pkgX")] :=
  ⟨by decide, rfl⟩

/-- C9 (amended).  The transformer is invoked on every manifest that
parses as JSON and whose `repositoryURL` does not make the `urlparse`
call of line 235 raise — regardless of validation failures in that
manifest or in others (the scan state is arbitrary).  A manifest that
fails to parse is skipped; a manifest whose `repositoryURL` raises kills
the run before lines 321-353, so it is never transformed; and over a
raise-free run the accumulated errors gate only the final write. -/
theorem c9_transform_unconditional (ue : List Char → Bool) (ug : Nat → List Char)
    (rb : List Char) (tM dM : Int) (st : ScanState) (pkg : PackageSrc)
    (m : JValue) :
    (pkg.manifestData = Except.ok m →
        repoUrlRaises (objGet m (S "repositoryURL")) = false →
        processPackageE ue ug rb tM dM st pkg
            = Except.ok (processPackage ue ug rb tM dM st pkg)
          ∧ (processPackage ue ug rb tM dM st pkg).manifests
            = st.manifests ++ [transformManifest rb m
                (resolveIdentity ug st.counter pkg.autogenId).packageId
                (userNameFromPath pkg) (relPackageDir pkg)])
      ∧ (∀ lc, pkg.manifestData = Except.error lc →
          processPackageE ue ug rb tM dM st pkg
              = Except.ok (processPackage ue ug rb tM dM st pkg)
            ∧ (processPackage ue ug rb tM dM st pkg).manifests = st.manifests)
      ∧ (pkg.manifestData = Except.ok m →
          repoUrlRaises (objGet m (S "repositoryURL")) = true →
          ∃ e, processPackageE ue ug rb tM dM st pkg = Except.error e)
      ∧ (∀ (env : Env) (cfg : JValue) (repoBase : List Char),
          env.pkgs ≠ [] →
          env.pkgs.all pkgNoRaise = true →
          getConfig env.configJson = Except.ok cfg →
          buildRawBase (configUrl cfg) = Except.ok repoBase →
          ((mainRunE env).outputs.isSome ↔ (runScan env cfg repoBase).errors = [])) := by
  refine ⟨?_, ?_, ?_, ?_⟩
  · intro hm hnr
    refine ⟨processPackageE_ok _ _ _ _ _ _ _ ?_, by simp [processPackage, hm]⟩
    unfold pkgNoRaise
    rw [hm]
    simp [hnr]
  · intro lc hm
    refine ⟨processPackageE_ok _ _ _ _ _ _ _ ?_, by simp [processPackage, hm]⟩
    unfold pkgNoRaise
    rw [hm]
  · intro hm hraise
    obtain ⟨u, hv, hstrip, e, hp⟩ := repoUrlRaises_true _ hraise
    refine ⟨e, ?_⟩
    unfold processPackageE
    rw [hm]
    dsimp only []
    rw [hv]
    dsimp only []
    rw [if_neg hstrip, hp]
  · intro env cfg repoBase hne hall hcfg hbase
    rw [mainRunE_eq_mainRun env hall]
    have hs : (sortedPkgs env).isEmpty = false :=
      List.isEmpty_eq_false.mpr (sortedPkgs_ne_nil env hne)
    by_cases herr : (runScan env cfg repoBase).errors = []
    · simp [mainRun, hs, hcfg, hbase, herr]
    · have herr2 : (runScan env cfg repoBase).errors.isEmpty = false :=
        List.isEmpty_eq_false.mpr herr
      simp [mainRun, hs, hcfg, hbase, herr2, herr]

/-- Witness for C9 (amended) at the concrete failing (but raise-free)
package. -/
theorem c9_transform_unconditional_witness :
    (processPackage (fun _ => true) (fun n => (S "uuid-") ++ natStr n)
        (S "https://raw.githubusercontent.com/o/r/refs/heads/main/") 100 500
        initState c9Pkg).manifests
      = initState.manifests
        ++ [transformManifest (S "https://raw.githubusercontent.com/o/r/refs/heads/main/")
            (wManifestBadTags "alice" "pkgX")
            (resolveIdentity (fun n => (S "uuid-") ++ natStr n) initState.counter
              c9Pkg.autogenId).packageId
            (userNameFromPath c9Pkg) (relPackageDir c9Pkg)] :=
  ((c9_transform_unconditional (fun _ => true) (fun n => (S "uuid-") ++ natStr n)
    (S "https://raw.githubusercontent.com/o/r/refs/heads/main/") 100 500
    initState c9Pkg (wManifestBadTags "alice" "pkgX")).1 rfl (by decide)).2

/-! ## C10: deterministic, path-sorted catalog order -/

/-- `chLe` is reflexive. -/
theorem chLe_refl (a : List Char) : chLe a a = true := by
  induction a with
  | nil => rfl
  | cons c cs ih => simp [chLe, ih]

/-- `chLe` is total. -/
theorem chLe_total : ∀ (a b : List Char), chLe a b = true ∨ chLe b a = true
  | [], _ => Or.inl rfl
  | _ :: _, [] => Or.inr rfl
  | a :: as, b :: bs => by
    by_cases h : a = b
    · subst h
      rcases chLe_total as bs with h2 | h2
      · left; simp [chLe, h2]
      · right; simp [chLe, h2]
    · rcases lt_or_gt_of_ne h with hl | hl
      · left
        simp [chLe, if_neg h, hl]
      · right
        have hne : b ≠ a := fun he => h he.symm
        simp [chLe, if_neg hne, hl]

/-- `chLe` is transitive. -/
theorem chLe_trans : ∀ (a b c : List Char),
    chLe a b = true → chLe b c = true → chLe a c = true
  | [], _, _, _, _ => rfl
  | _ :: _, [], _, hab, _ => by simp [chLe] at hab
  | _ :: _, _ :: _, [], _, hbc => by simp [chLe] at hbc
  | a :: as, b :: bs, c :: cs, hab, hbc => by
    by_cases h1 : a = b
    · subst h1
      by_cases h2 : a = c
      · subst h2
        simp only [chLe, if_pos rfl] at hab hbc ⊢
        exact chLe_trans as bs cs hab hbc
      · simp only [chLe, if_pos rfl] at hab
        simp only [chLe, if_neg h2] at hbc ⊢
        exact hbc
    · simp only [chLe, if_neg h1] at hab
      have hab2 : a < b := of_decide_eq_true hab
      by_cases h2 : b = c
      · subst h2
        simp only [chLe, if_neg h1]
        exact hab
      · simp only [chLe, if_neg h2] at hbc
        have hbc2 : b < c := of_decide_eq_true hbc
        have hac : a < c := lt_trans hab2 hbc2
        simp only [chLe, if_neg (ne_of_lt hac)]
        exact decide_eq_true hac

/-- `chLe` is antisymmetric. -/
theorem chLe_antisymm : ∀ (a b : List Char),
    chLe a b = true → chLe b a = true → a = b
  | [], [], _, _ => rfl
  | [], _ :: _, _, hba => by simp [chLe] at hba
  | _ :: _, [], hab, _ => by simp [chLe] at hab
  | a :: as, b :: bs, hab, hba => by
    by_cases h : a = b
    · subst h
      simp only [chLe, if_pos rfl] at hab hba
      rw [chLe_antisymm as bs hab hba]
    · have hne : b ≠ a := fun he => h he.symm
      simp only [chLe, if_neg h] at hab
      simp only [chLe, if_neg hne] at hba
      exact absurd (of_decide_eq_true hba) (lt_asymm (of_decide_eq_true hab))

/-- Package ordering is total. -/
theorem pkgLe_total (p q : PackageSrc) : pkgLe p q = true ∨ pkgLe q p = true :=
  chLe_total _ _

/-- Package ordering is transitive. -/
theorem pkgLe_trans (p q r : PackageSrc) (h1 : pkgLe p q = true)
    (h2 : pkgLe q r = true) : pkgLe p r = true :=
  chLe_trans _ _ _ h1 h2

/-- Inserting into a sorted list keeps it sorted. -/
theorem insertLe_pairwise (a : PackageSrc) (l : List PackageSrc)
    (h : List.Pairwise (fun p q => pkgLe p q = true) l) :
    List.Pairwise (fun p q => pkgLe p q = true) (insertLe pkgLe a l) := by
  induction l with
  | nil => simp [insertLe]
  | cons b bs ih =>
    rw [List.pairwise_cons] at h
    by_cases hab : pkgLe a b = true
    · rw [insertLe, if_pos hab, List.pairwise_cons]
      constructor
      · intro x hx
        rcases List.mem_cons.mp hx with rfl | hx
        · exact hab
        · exact pkgLe_trans a b x hab (h.1 x hx)
      · rw [List.pairwise_cons]
        exact h
    · rw [insertLe, if_neg hab, List.pairwise_cons]
      constructor
      · intro x hx
        rcases List.mem_cons.mp ((insertLe_perm pkgLe a bs).mem_iff.mp hx)
          with rfl | hx2
        · rcases pkgLe_total x b with h2 | h2
          · exact absurd h2 hab
          · exact h2
        · exact h.1 x hx2
      · exact ih h.2

/-- The insertion sort sorts. -/
theorem pySorted_pairwise (l : List PackageSrc) :
    List.Pairwise (fun p q => pkgLe p q = true) (pySorted pkgLe l) := by
  induction l with
  | nil => simp [pySorted]
  | cons a as ih => exact insertLe_pairwise a _ ih

/-- Two sorted permutations of each other with pairwise-distinct path
labels are equal. -/
theorem pySorted_unique : ∀ (l1 l2 : List PackageSrc),
    List.Pairwise (fun p q => pkgLe p q = true) l1 →
    List.Pairwise (fun p q => pkgLe p q = true) l2 →
    l1.Perm l2 → (l1.map packageLabel).Nodup → l1 = l2
  | [], l2, _, _, hp, _ => hp.nil_eq
  | a :: t1, [], _, _, hp, _ => by
    exact absurd hp.symm (by simp)
  | a :: t1, b :: t2, h1, h2, hp, hnd => by
    by_cases hab : a = b
    · subst hab
      rw [List.pairwise_cons] at h1 h2
      rw [List.map_cons, List.nodup_cons] at hnd
      rw [pySorted_unique t1 t2 h1.2 h2.2 hp.cons_inv hnd.2]
    · exfalso
      have hain : a ∈ t2 := by
        have := hp.mem_iff.mp (List.mem_cons_self a t1)
        rcases List.mem_cons.mp this with h | h
        · exact absurd h hab
        · exact h
      have hbin : b ∈ t1 := by
        have := hp.symm.mem_iff.mp (List.mem_cons_self b t2)
        rcases List.mem_cons.mp this with h | h
        · exact absurd h.symm hab
        · exact h
      rw [List.pairwise_cons] at h1 h2
      have hkey : packageLabel a = packageLabel b :=
        chLe_antisymm _ _ (h1.1 b hbin) (h2.1 a hain)
      rw [List.map_cons, List.nodup_cons] at hnd
      exact hnd.1 (hkey ▸ List.mem_map_of_mem packageLabel hbin)

/-- C10.  The scan processes the discovered packages in
lexicographically sorted manifest-path order (the processed list is a
sorted permutation of the discovered set); the records of a written
catalog are exactly the scan's records in that order; and permuting the
discovery order of a tree with distinct manifest paths leaves the whole
run, in particular the catalog ordering, unchanged. -/
theorem c10_sorted_catalog :
    (∀ env : Env,
        (sortedPkgs env).Perm env.pkgs
          ∧ List.Pairwise (fun p q => pkgLe p q = true) (sortedPkgs env))
      ∧ (∀ (env : Env) (o : RunOutputs) (cfg : JValue) (repoBase : List Char),
          getConfig env.configJson = Except.ok cfg →
          buildRawBase (configUrl cfg) = Except.ok repoBase →
          (mainRun env).outputs = some o →
          catalogRecords o = (runScan env cfg repoBase).manifests)
      ∧ (∀ (env : Env) (pkgs2 : List PackageSrc),
          env.pkgs.Perm pkgs2 →
          (env.pkgs.map packageLabel).Nodup →
          mainRun { env with pkgs := pkgs2 } = mainRun env) := by
  refine ⟨?_, ?_, ?_⟩
  · intro env
    exact ⟨pySorted_perm pkgLe env.pkgs, pySorted_pairwise env.pkgs⟩
  · intro env o cfg repoBase hcfg hbase hout
    simp only [mainRun] at hout
    by_cases h1 : (sortedPkgs env).isEmpty = true
    · rw [if_pos h1] at hout
      exact absurd hout (by simp)
    · rw [if_neg h1] at hout
      simp only [hcfg, hbase] at hout
      by_cases herrs : (runScan env cfg repoBase).errors.isEmpty = true
      · rw [if_neg (not_not_intro herrs)] at hout
        have ho : o = ⟨.obj [(S "packages", .arr (runScan env cfg repoBase).manifests)],
            .obj [(S "packages", .arr (runScan env cfg repoBase).manifests)], true⟩ := by
          cases hout
          rfl
        rw [ho]
        rfl
      · rw [if_pos herrs] at hout
        exact absurd hout (by simp)
  · intro env pkgs2 hperm hnd
    have hkey : sortedPkgs { env with pkgs := pkgs2 } = sortedPkgs env := by
      apply pySorted_unique
      · exact pySorted_pairwise pkgs2
      · exact pySorted_pairwise env.pkgs
      · exact (pySorted_perm pkgLe pkgs2).trans
          (hperm.symm.trans (pySorted_perm pkgLe env.pkgs).symm)
      · have : (pySorted pkgLe pkgs2).Perm env.pkgs :=
          (pySorted_perm pkgLe pkgs2).trans hperm.symm
        exact ((this.map packageLabel).nodup_iff).mpr hnd
    unfold mainRun runScan
    rw [hkey]

/-- Witness for C10: permuting a concrete two-package environment does
not change the run. -/
theorem c10_sorted_catalog_witness :
    mainRun { wEnv with
      pkgs := [wPkg "alice" "pkgX" (some "id-alice\n"), wPkg "bob" "pkgY" none] }
      = mainRun wEnv :=
  c10_sorted_catalog.2.2 wEnv
    [wPkg "alice" "pkgX" (some "id-alice\n"), wPkg "bob" "pkgY" none]
    (List.Perm.swap _ _ _) (by decide)

/-! ## C8: totality of the URL normalizer -/

theorem mem_filter_subset {l : List Char} {p : Char → Bool} {c : Char}
    (h : c ∈ l.filter p) : c ∈ l :=
  List.mem_of_mem_filter h

theorem mem_pyUrlPreclean {u : List Char} {c : Char}
    (h : c ∈ pyUrlPreclean u) : c ∈ u := by
  unfold pyUrlPreclean at h
  exact (List.dropWhile_sublist _).subset (mem_filter_subset h)

theorem mem_pyStrip {u : List Char} {c : Char} (h : c ∈ pyStrip u) : c ∈ u := by
  unfold pyStrip at h
  rw [List.mem_reverse] at h
  have := (List.dropWhile_sublist (l := (u.dropWhile isPyWs).reverse) isPyWs).subset h
  rw [List.mem_reverse] at this
  exact (List.dropWhile_sublist _).subset this

theorem pyToLowerChar_cases (c : Char) :
    pyToLowerChar c = c ∨ pyToLowerChar c ∈ pyLowerPairs.map Prod.snd := by
  unfold pyToLowerChar
  cases hf : pyLowerPairs.find? (fun p => p.1 = c) with
  | none => left; rfl
  | some p =>
    right
    exact List.mem_map_of_mem Prod.snd (List.mem_of_find?_eq_some hf)

theorem mem_pyToLower_bracket {l : List Char} {c : Char}
    (hmem : c ∈ pyToLower l) (hb : c = '[' ∨ c = ']') : c ∈ l := by
  unfold pyToLower at hmem
  obtain ⟨c0, hc0, hlow⟩ := List.mem_map.mp hmem
  rcases pyToLowerChar_cases c0 with hcase | hcase
  · rw [← hlow, hcase]
    exact hc0
  · rw [hlow] at hcase
    rcases hb with rfl | rfl
    · exact absurd hcase (by decide)
    · exact absurd hcase (by decide)

theorem pySplitScheme_fst_chars (url : List Char) (c : Char)
    (hc : c ∈ (pySplitScheme url).1) : ∃ c0 ∈ url, pyToLowerChar c0 = c := by
  unfold pySplitScheme at hc
  split at hc
  · simp at hc
  · split at hc
    · simp only [] at hc
      obtain ⟨c0, hc0, hlow⟩ := List.mem_map.mp hc
      exact ⟨c0, List.take_subset _ _ hc0, hlow⟩
    · simp at hc

theorem pySplitScheme_snd_chars (url : List Char) (c : Char)
    (hc : c ∈ (pySplitScheme url).2) : c ∈ url := by
  unfold pySplitScheme at hc
  split at hc
  · exact hc
  · split at hc
    · exact List.drop_subset _ _ hc
    · exact hc

theorem scheme_no_bracket (url : List Char) (c : Char)
    (hb : c = '[' ∨ c = ']') (hnc : c ∉ url) :
    c ∉ (pySplitScheme url).1 := by
  intro hc
  obtain ⟨c0, hc0, hlow⟩ := pySplitScheme_fst_chars url c hc
  apply hnc
  have : c ∈ pyToLower [c0] := by
    unfold pyToLower
    rw [List.map_cons, List.map_nil, ← hlow]
    exact List.mem_singleton_self _
  have := mem_pyToLower_bracket this hb
  rw [List.mem_singleton] at this
  rwa [this]

theorem not_mem_takeWhile {c : Char} {p : Char → Bool} {l : List Char}
    (h : c ∉ l) : c ∉ l.takeWhile p :=
  fun hm => h ((List.takeWhile_sublist p).subset hm)

theorem not_mem_dropWhile {c : Char} {p : Char → Bool} {l : List Char}
    (h : c ∉ l) : c ∉ l.dropWhile p :=
  fun hm => h ((List.dropWhile_sublist p).subset hm)

theorem not_mem_drop {c : Char} {n : Nat} {l : List Char}
    (h : c ∉ l) : c ∉ l.drop n :=
  fun hm => h (List.drop_subset n l hm)

theorem not_contains_of_not_mem {c : Char} {l : List Char}
    (h : c ∉ l) : ¬ l.contains c = true :=
  fun hc => h ((contains_char_iff_mem l c).mp hc)

theorem pyUrlparse_ok (u : List Char) (h1 : '[' ∉ u) (h2 : ']' ∉ u) :
    ∃ p, pyUrlparse u = Except.ok p
      ∧ '[' ∉ p.scheme ∧ ']' ∉ p.scheme
      ∧ '[' ∉ p.netloc ∧ ']' ∉ p.netloc
      ∧ '[' ∉ p.path ∧ ']' ∉ p.path := by
  have hc1 : '[' ∉ pyUrlPreclean u := fun hm => h1 (mem_pyUrlPreclean hm)
  have hc2 : ']' ∉ pyUrlPreclean u := fun hm => h2 (mem_pyUrlPreclean hm)
  obtain ⟨scheme, rest, hps⟩ : ∃ a b, pySplitScheme (pyUrlPreclean u) = (a, b) :=
    ⟨_, _, rfl⟩
  have hs1 : '[' ∉ scheme := by
    have := scheme_no_bracket (pyUrlPreclean u) _ (Or.inl rfl) hc1
    rw [hps] at this
    exact this
  have hs2 : ']' ∉ scheme := by
    have := scheme_no_bracket (pyUrlPreclean u) _ (Or.inr rfl) hc2
    rw [hps] at this
    exact this
  have hr1 : '[' ∉ rest := by
    intro hm
    apply hc1
    apply pySplitScheme_snd_chars (pyUrlPreclean u)
    rw [hps]
    exact hm
  have hr2 : ']' ∉ rest := by
    intro hm
    apply hc2
    apply pySplitScheme_snd_chars (pyUrlPreclean u)
    rw [hps]
    exact hm
  unfold pyUrlparse
  dsimp only []
  rw [hps]
  dsimp only []
  by_cases hsl : List.take 2 rest = S "//"
  · rw [if_pos hsl]
    dsimp only []
    rw [if_neg (by
      push_neg
      exact ⟨fun hcon => absurd ((contains_char_iff_mem _ _).mp hcon)
          (not_mem_takeWhile (not_mem_drop hr1)),
        fun hcon => absurd ((contains_char_iff_mem _ _).mp hcon)
          (not_mem_takeWhile (not_mem_drop hr2))⟩)]
    by_cases hfr : (List.dropWhile (fun c => !isNetlocStop c)
        (List.drop 2 rest)).contains '#' = true
    · rw [if_pos hfr]
      dsimp only []
      by_cases hq : (List.takeWhile (fun c => decide (c ≠ '#'))
          (List.dropWhile (fun c => !isNetlocStop c)
            (List.drop 2 rest))).contains '?' = true
      · rw [if_pos hq]
        dsimp only []
        exact ⟨_, rfl, hs1, hs2,
          not_mem_takeWhile (not_mem_drop hr1),
          not_mem_takeWhile (not_mem_drop hr2),
          not_mem_takeWhile (not_mem_takeWhile (not_mem_dropWhile (not_mem_drop hr1))),
          not_mem_takeWhile (not_mem_takeWhile (not_mem_dropWhile (not_mem_drop hr2)))⟩
      · rw [if_neg hq]
        dsimp only []
        exact ⟨_, rfl, hs1, hs2,
          not_mem_takeWhile (not_mem_drop hr1),
          not_mem_takeWhile (not_mem_drop hr2),
          not_mem_takeWhile (not_mem_dropWhile (not_mem_drop hr1)),
          not_mem_takeWhile (not_mem_dropWhile (not_mem_drop hr2))⟩
    · rw [if_neg hfr]
      dsimp only []
      by_cases hq : (List.dropWhile (fun c => !isNetlocStop c)
          (List.drop 2 rest)).contains '?' = true
      · rw [if_pos hq]
        dsimp only []
        exact ⟨_, rfl, hs1, hs2,
          not_mem_takeWhile (not_mem_drop hr1),
          not_mem_takeWhile (not_mem_drop hr2),
          not_mem_takeWhile (not_mem_dropWhile (not_mem_drop hr1)),
          not_mem_takeWhile (not_mem_dropWhile (not_mem_drop hr2))⟩
      · rw [if_neg hq]
        dsimp only []
        exact ⟨_, rfl, hs1, hs2,
          not_mem_takeWhile (not_mem_drop hr1),
          not_mem_takeWhile (not_mem_drop hr2),
          not_mem_dropWhile (not_mem_drop hr1),
          not_mem_dropWhile (not_mem_drop hr2)⟩
  · rw [if_neg hsl]
    dsimp only []
    rw [if_neg (by simp [List.contains])]
    by_cases hfr : rest.contains '#' = true
    · rw [if_pos hfr]
      dsimp only []
      by_cases hq : (List.takeWhile (fun c => decide (c ≠ '#')) rest).contains '?' = true
      · rw [if_pos hq]
        dsimp only []
        exact ⟨_, rfl, hs1, hs2, (by simp), (by simp),
          not_mem_takeWhile (not_mem_takeWhile hr1),
          not_mem_takeWhile (not_mem_takeWhile hr2)⟩
      · rw [if_neg hq]
        dsimp only []
        exact ⟨_, rfl, hs1, hs2, (by simp), (by simp),
          not_mem_takeWhile hr1, not_mem_takeWhile hr2⟩
    · rw [if_neg hfr]
      dsimp only []
      by_cases hq : rest.contains '?' = true
      · rw [if_pos hq]
        dsimp only []
        exact ⟨_, rfl, hs1, hs2, (by simp), (by simp),
          not_mem_takeWhile hr1, not_mem_takeWhile hr2⟩
      · rw [if_neg hq]
        dsimp only []
        exact ⟨_, rfl, hs1, hs2, (by simp), (by simp), hr1, hr2⟩

set_option maxHeartbeats 1000000 in
theorem pyUrlunsplit_chars (p : UrlParts) (c : Char) (hc : c ∈ pyUrlunsplit p) :
    c ∈ p.scheme ∨ c ∈ p.netloc ∨ c ∈ p.path ∨ c ∈ p.query ∨ c ∈ p.fragment
      ∨ c = '/' ∨ c = ':' ∨ c = '?' ∨ c = '#' := by
  unfold pyUrlunsplit at hc
  dsimp only [] at hc
  repeat' split at hc
  all_goals
    first
      | (simp only [show S "//" = ['/', '/'] from rfl, show S ":" = [':'] from rfl,
            show S "/" = ['/'] from rfl, show S "?" = ['?'] from rfl,
            show S "#" = ['#'] from rfl, List.mem_append, List.mem_cons,
            List.not_mem_nil, or_false] at hc
         tauto)
      | tauto

/-- Success of an `Except` value yields a witness. -/
theorem exceptOk_exists {e a : Type} (x : Except e a) (h : exceptOk x = true) :
    ∃ r, x = Except.ok r := by
  cases x with
  | ok r => exact ⟨r, rfl⟩
  | error err => simp [exceptOk] at h

/-- `bind` on a value known to be `ok`. -/
theorem exceptBind_ok {e a b : Type} (x : Except e a) (f : a → Except e b) (v : a)
    (h : x = Except.ok v) : (x >>= f) = f v := by
  rw [h]
  rfl

/-- A character of `_normalize_repository_url`'s output that is not part
of the prepended default scheme is a character of the input. -/
theorem mem_normalizeRepositoryUrl {s : List Char} {c : Char}
    (hc : c ∈ normalizeRepositoryUrl s) (hh : c ∉ S "https://") : c ∈ s := by
  unfold normalizeRepositoryUrl at hc
  dsimp only [] at hc
  split at hc
  · exact mem_pyStrip hc
  · split at hc
    · rcases List.mem_append.mp hc with h | h
      · exact absurd h hh
      · exact mem_pyStrip h
    · exact mem_pyStrip hc

/-- `_strip_query_and_fragment` succeeds on bracket-free input and its
result is again bracket-free. -/
theorem stripQueryAndFragment_ok (u : List Char) (h1 : '[' ∉ u) (h2 : ']' ∉ u) :
    ∃ r, stripQueryAndFragment u = Except.ok r ∧ '[' ∉ r ∧ ']' ∉ r := by
  obtain ⟨p, hp, hs1, hs2, hn1, hn2, hp1, hp2⟩ := pyUrlparse_ok u h1 h2
  refine ⟨pyUrlunsplit { p with query := [], fragment := [] }, ?_, ?_, ?_⟩
  · unfold stripQueryAndFragment
    rw [exceptBind_ok _ _ _ hp]
    rfl
  · intro hm
    rcases pyUrlunsplit_chars _ _ hm with h | h | h | h | h | h | h | h | h
    · exact hs1 h
    · exact hn1 h
    · exact hp1 h
    · exact absurd h (List.not_mem_nil _)
    · exact absurd h (List.not_mem_nil _)
    · exact absurd h (by decide)
    · exact absurd h (by decide)
    · exact absurd h (by decide)
    · exact absurd h (by decide)
  · intro hm
    rcases pyUrlunsplit_chars _ _ hm with h | h | h | h | h | h | h | h | h
    · exact hs2 h
    · exact hn2 h
    · exact hp2 h
    · exact absurd h (List.not_mem_nil _)
    · exact absurd h (List.not_mem_nil _)
    · exact absurd h (by decide)
    · exact absurd h (by decide)
    · exact absurd h (by decide)
    · exact absurd h (by decide)

/-- `_strip_file_name` succeeds on bracket-free input. -/
theorem stripFileName_ok (u : List Char) (h1 : '[' ∉ u) (h2 : ']' ∉ u) :
    ∃ r, stripFileName u = Except.ok r := by
  obtain ⟨p, hp, -, -, -, -, -, -⟩ := pyUrlparse_ok u h1 h2
  unfold stripFileName
  rw [exceptBind_ok _ _ _ hp]
  dsimp only []
  by_cases hl : p.path.getLast? = some '/'
  · refine ⟨u, ?_⟩
    rw [if_pos hl]
    rfl
  · refine ⟨pyUrlunsplit { p with
        path := (List.intercalate (S "/") (List.splitOn '/' p.path).dropLast) ++ S "/" }, ?_⟩
    rw [if_neg hl]
    rfl

/-- C8 counterexample: `_build_raw_base` is not total.  On the input
`"["` the normalizer defaults the scheme, producing `"https://["`, and
the `urlparse` call inside `_strip_query_and_fragment` raises
`ValueError("Invalid IPv6 URL")` — the function propagates an exception
instead of degrading to a best-effort string. -/
theorem c8_counterexample :
    buildRawBase (S "[") = Except.error (S "Invalid IPv6 URL") := rfl

/-- C8 (amended).  On every input without square brackets (restricted to
ASCII, the scope of the underlying `urlparse` model), `_build_raw_base`
returns a string without raising: the `ValueError` of its parser is
possible only for inputs carrying an unmatched bracket into the
netloc. -/
theorem c8_normalizer_total (s : List Char)
    (h1 : '[' ∉ s) (h2 : ']' ∉ s)
    (hascii : ∀ c ∈ s, c.toNat < 128) :
    ∃ r, buildRawBase s = Except.ok r := by
  have hn1 : '[' ∉ normalizeRepositoryUrl s :=
    fun hm => h1 (mem_normalizeRepositoryUrl hm (by decide))
  have hn2 : ']' ∉ normalizeRepositoryUrl s :=
    fun hm => h2 (mem_normalizeRepositoryUrl hm (by decide))
  obtain ⟨clean, hclean, hc1, hc2⟩ := stripQueryAndFragment_ok _ hn1 hn2
  unfold buildRawBase
  rw [exceptBind_ok _ _ _ hclean]
  dsimp only []
  by_cases hraw : containsSeq (S "raw.githubusercontent.com") clean = true
  · rw [if_pos hraw]
    obtain ⟨r2, hr2⟩ := stripFileName_ok clean hc1 hc2
    rw [exceptBind_ok _ _ _ hr2]
    exact ⟨_, rfl⟩
  · rw [if_neg hraw]
    by_cases hgh : containsSeq (S "github.com/") clean = true
    · rw [if_pos hgh]
      exact ⟨_, rfl⟩
    · rw [if_neg hgh]
      obtain ⟨r2, hr2⟩ := stripFileName_ok clean hc1 hc2
      rw [exceptBind_ok _ _ _ hr2]
      exact ⟨_, rfl⟩

/-- Witness for C8 (amended) at a concrete schemeless input. -/
theorem c8_normalizer_total_witness :
    ('[' ∉ S "github.com/owner/repo")
      ∧ (']' ∉ S "github.com/owner/repo")
      ∧ (∀ c ∈ S "github.com/owner/repo", c.toNat < 128)
      ∧ ∃ r, buildRawBase (S "github.com/owner/repo") = Except.ok r :=
  ⟨by decide, by decide, by decide,
    c8_normalizer_total (S "github.com/owner/repo") (by decide) (by decide) (by decide)⟩

/-! ## C2: the shape of the computed raw base -/

/-- Absence of a character, as a `contains` test. -/
theorem contains_eq_false_iff (l : List Char) (c : Char) :
    l.contains c = false ↔ c ∉ l := by
  constructor
  · intro h hm
    rw [(contains_char_iff_mem l c).mpr hm] at h
    exact Bool.noConfusion h
  · intro h
    cases hc : l.contains c with
    | false => rfl
    | true => exact absurd ((contains_char_iff_mem l c).mp hc) h

/-- A prefix occurrence makes `containsSeq` true. -/
theorem containsSeq_of_leading {pat l : List Char} (h : pat <+: l) :
    containsSeq pat l = true := by
  cases l with
  | nil =>
    have hp : pat = [] := List.prefix_nil.mp h
    subst hp
    rfl
  | cons c cs =>
    have hb : pat.isPrefixOf (c :: cs) = true := List.isPrefixOf_iff_prefix.mpr h
    simp only [containsSeq, hb, Bool.true_or]

/-- An explicit interior occurrence makes `containsSeq` true. -/
theorem containsSeq_append_pat (pat : List Char) :
    ∀ (a b : List Char), containsSeq pat (a ++ (pat ++ b)) = true := by
  intro a
  induction a with
  | nil =>
    intro b
    rw [List.nil_append]
    exact containsSeq_of_leading (List.prefix_append pat b)
  | cons c a2 ih =>
    intro b
    rw [List.cons_append]
    simp only [containsSeq, ih b, Bool.or_true]

/-- A prefix of an append that fits inside the left part is a prefix of
the left part. -/
theorem prefix_of_append_of_le {pat x y : List Char}
    (hpre : pat <+: x ++ y) (hlen : pat.length ≤ x.length) : pat <+: x := by
  have h1 : pat = List.take pat.length (x ++ y) := List.prefix_iff_eq_take.mp hpre
  rw [List.take_append_eq_append_take, Nat.sub_eq_zero_of_le hlen,
    List.take_zero, List.append_nil] at h1
  rw [h1]
  exact List.take_prefix _ _

/-- Unfolding step of `splitOnSeqFuel` at a match position. -/
theorem splitOnSeqFuel_cons_pos (pat : List Char) {c : Char} {cs : List Char}
    (hne : pat ≠ []) (hpre : pat.isPrefixOf (c :: cs) = true) (fuel : Nat) :
    splitOnSeqFuel pat (fuel + 1) (c :: cs)
      = [] :: splitOnSeqFuel pat fuel (cs.drop (pat.length - 1)) := by
  simp only [splitOnSeqFuel]
  rw [if_pos ⟨hne, hpre⟩]

/-- Unfolding step of `splitOnSeqFuel` at a non-match position. -/
theorem splitOnSeqFuel_cons_neg (pat : List Char) {c : Char} {cs : List Char}
    (h : ¬(pat ≠ [] ∧ pat.isPrefixOf (c :: cs) = true)) (fuel : Nat) :
    splitOnSeqFuel pat (fuel + 1) (c :: cs)
      = match splitOnSeqFuel pat fuel cs with
        | [] => [[c]]
        | h :: t => (c :: h) :: t := by
  simp only [splitOnSeqFuel]
  rw [if_neg h]

/-- Any sufficient fuel computes the same split as the canonical fuel. -/
theorem splitOnSeqFuel_len (pat : List Char) :
    ∀ (fuel : Nat) (l : List Char), l.length ≤ fuel →
      splitOnSeqFuel pat fuel l = splitOnSeqFuel pat l.length l := by
  intro fuel
  induction fuel using Nat.strong_induction_on with
  | _ fuel ih =>
    intro l hl
    cases l with
    | nil => cases fuel <;> rfl
    | cons c cs =>
      cases fuel with
      | zero => simp at hl
      | succ f =>
        have hcs : cs.length ≤ f := by
          simp only [List.length_cons] at hl
          omega
        simp only [List.length_cons]
        by_cases hpre : pat ≠ [] ∧ pat.isPrefixOf (c :: cs) = true
        · rw [splitOnSeqFuel_cons_pos pat hpre.1 hpre.2 f,
            splitOnSeqFuel_cons_pos pat hpre.1 hpre.2 cs.length]
          congr 1
          have hd : (cs.drop (pat.length - 1)).length ≤ cs.length := by
            rw [List.length_drop]
            omega
          rw [ih f (Nat.lt_succ_self f) _ (le_trans hd hcs),
            ih cs.length (Nat.lt_succ_of_le hcs) _ hd]
        · rw [splitOnSeqFuel_cons_neg pat hpre f,
            splitOnSeqFuel_cons_neg pat hpre cs.length]
          rw [ih f (Nat.lt_succ_self f) cs hcs,
            ih cs.length (Nat.lt_succ_of_le hcs) cs (le_refl _)]

/-- With no occurrence of the separator the split returns the whole
string. -/
theorem splitOnSeqFuel_not_contains (pat : List Char) :
    ∀ (fuel : Nat) (l : List Char), containsSeq pat l = false →
      splitOnSeqFuel pat fuel l = [l] := by
  intro fuel
  induction fuel with
  | zero => intro l h; cases l <;> rfl
  | succ f ih =>
    intro l h
    cases l with
    | nil => rfl
    | cons c cs =>
      simp only [containsSeq, Bool.or_eq_false_iff] at h
      rw [splitOnSeqFuel_cons_neg pat (by
        rintro ⟨-, hp⟩
        rw [h.1] at hp
        exact Bool.noConfusion hp) f]
      rw [ih cs h.2]

/-- `str.split` with no occurrence of the separator. -/
theorem splitOnSeq_not_contains (pat l : List Char)
    (h : containsSeq pat l = false) : splitOnSeq pat l = [l] :=
  splitOnSeqFuel_not_contains pat l.length l h

/-- `str.split` at the first separator occurrence: when no occurrence
starts strictly before the explicit one, the split peels off the text
before it. -/
theorem splitOnSeq_append_first (pat : List Char) :
    ∀ (a b : List Char), pat ≠ [] →
      containsSeq pat (a ++ pat.dropLast) = false →
      splitOnSeq pat (a ++ (pat ++ b)) = a :: splitOnSeq pat b := by
  intro a
  induction a with
  | nil =>
    intro b hne hno
    obtain ⟨p, ps, rfl⟩ : ∃ p ps, pat = p :: ps := by
      cases pat with
      | nil => exact absurd rfl hne
      | cons p ps => exact ⟨p, ps, rfl⟩
    rw [List.nil_append]
    unfold splitOnSeq
    rw [show ((p :: ps) ++ b) = p :: (ps ++ b) from rfl]
    rw [show (p :: (ps ++ b)).length = (ps ++ b).length + 1 from by simp]
    rw [splitOnSeqFuel_cons_pos _ hne
      (List.isPrefixOf_iff_prefix.mpr (by
        rw [show (p :: (ps ++ b)) = (p :: ps) ++ b from rfl]
        exact List.prefix_append _ _)) _]
    congr 1
    rw [show (p :: ps : List Char).length - 1 = ps.length from by simp]
    rw [List.drop_left]
    exact splitOnSeqFuel_len (p :: ps) (ps ++ b).length b (by simp)
  | cons c a2 ih =>
    intro b hne hno
    have hno2 : containsSeq pat (a2 ++ pat.dropLast) = false := by
      rw [List.cons_append] at hno
      simp only [containsSeq, Bool.or_eq_false_iff] at hno
      exact hno.2
    have hdl : pat.dropLast ++ (pat.getLast hne :: b) = pat ++ b := by
      rw [show pat.getLast hne :: b = [pat.getLast hne] ++ b from rfl,
        ← List.append_assoc, List.dropLast_append_getLast hne]
    have hfull : c :: (a2 ++ (pat ++ b))
        = ((c :: a2) ++ pat.dropLast) ++ (pat.getLast hne :: b) := by
      simp only [List.cons_append, List.append_assoc, hdl]
    have hnpre : ¬(pat ≠ [] ∧ pat.isPrefixOf (c :: (a2 ++ (pat ++ b))) = true) := by
      rintro ⟨-, hp⟩
      have hpre : pat <+: c :: (a2 ++ (pat ++ b)) :=
        List.isPrefixOf_iff_prefix.mp hp
      rw [hfull] at hpre
      have hlen : pat.length ≤ ((c :: a2) ++ pat.dropLast).length := by
        simp only [List.length_append, List.length_cons, List.length_dropLast]
        have : 1 ≤ pat.length := by
          cases pat with
          | nil => exact absurd rfl hne
          | cons x xs => simp
        omega
      have hcon := containsSeq_of_leading (prefix_of_append_of_le hpre hlen)
      rw [hno] at hcon
      exact Bool.noConfusion hcon
    rw [List.cons_append]
    unfold splitOnSeq
    rw [show (c :: (a2 ++ (pat ++ b))).length = (a2 ++ (pat ++ b)).length + 1 from by simp]
    rw [splitOnSeqFuel_cons_neg pat hnpre _]
    rw [show splitOnSeqFuel pat (a2 ++ (pat ++ b)).length (a2 ++ (pat ++ b))
        = a2 :: splitOnSeq pat b from ih b hne hno2]
    rfl

/-- `str.replace` with no occurrence of the pattern. -/
theorem replaceAllFuel_not_contains (pat rep : List Char) :
    ∀ (fuel : Nat) (l : List Char), containsSeq pat l = false →
      replaceAllFuel pat rep fuel l = l := by
  intro fuel
  induction fuel with
  | zero => intro l h; cases l <;> rfl
  | succ f ih =>
    intro l h
    cases l with
    | nil => rfl
    | cons c cs =>
      simp only [containsSeq, Bool.or_eq_false_iff] at h
      simp only [replaceAllFuel]
      rw [if_neg (by
        rintro ⟨-, hp⟩
        rw [h.1] at hp
        exact Bool.noConfusion hp)]
      rw [ih cs h.2]

/-- `str.replace` with no occurrence of the pattern. -/
theorem replaceAll_not_contains (pat rep l : List Char)
    (h : containsSeq pat l = false) : replaceAll pat rep l = l :=
  replaceAllFuel_not_contains pat rep l.length l h

/-- `str.replace(old, "")` on a string starting with `old` and carrying
no further occurrence deletes exactly the leading occurrence. -/
theorem replaceAll_drop_leading (pat rest : List Char) (hne : pat ≠ [])
    (h : containsSeq pat rest = false) :
    replaceAll pat [] (pat ++ rest) = rest := by
  obtain ⟨p, ps, rfl⟩ : ∃ p ps, pat = p :: ps := by
    cases pat with
    | nil => exact absurd rfl hne
    | cons p ps => exact ⟨p, ps, rfl⟩
  unfold replaceAll
  rw [show ((p :: ps) ++ rest) = p :: (ps ++ rest) from rfl]
  rw [show (p :: (ps ++ rest)).length = (ps ++ rest).length + 1 from by simp]
  simp only [replaceAllFuel]
  rw [if_pos ⟨hne, List.isPrefixOf_iff_prefix.mpr (by
    rw [show (p :: (ps ++ rest)) = (p :: ps) ++ rest from rfl]
    exact List.prefix_append _ _)⟩]
  rw [List.nil_append]
  rw [show (p :: ps : List Char).length - 1 = ps.length from by simp]
  rw [List.drop_left]
  exact replaceAllFuel_not_contains _ _ _ rest h

/-- `findIdx?` misses when no element satisfies the predicate. -/
theorem findIdx?_slash_none (br : List Char) (hbr : '/' ∉ br) :
    List.findIdx? (fun c => c = '/') br = none := by
  rw [List.findIdx?_eq_none_iff]
  intro x hx
  simp only [decide_eq_false_iff_not]
  intro heq
  rw [heq] at hx
  exact hbr hx

/-- `findIdx?` finds the separator right after a separator-free prefix,
for an arbitrary start index. -/
theorem findIdx?_slash_append_aux (sub : List Char) :
    ∀ (br : List Char), '/' ∉ br → ∀ (i : Nat),
      List.findIdx? (fun c => c = '/') (br ++ ((S "/") ++ sub)) i
        = some (i + br.length) := by
  intro br
  induction br with
  | nil => intro _ i; rfl
  | cons c cs ih =>
    intro hbr i
    have hc : c ≠ '/' := fun hh => hbr (hh ▸ List.mem_cons_self c cs)
    have hcs : '/' ∉ cs := fun hm => hbr (List.mem_cons_of_mem c hm)
    rw [List.cons_append, List.findIdx?_cons, if_neg (by simp [hc])]
    rw [ih hcs (i + 1)]
    congr 1
    simp only [List.length_cons]
    omega

/-- `findIdx?` finds the separator right after a separator-free
prefix. -/
theorem findIdx?_slash_append (br sub : List Char) (hbr : '/' ∉ br) :
    List.findIdx? (fun c => c = '/') (br ++ ((S "/") ++ sub)) = some br.length := by
  rw [show List.findIdx? (fun c => c = '/') (br ++ ((S "/") ++ sub))
      = List.findIdx? (fun c => c = '/') (br ++ ((S "/") ++ sub)) 0 from rfl]
  rw [findIdx?_slash_append_aux sub br hbr 0]
  rw [Nat.zero_add]

/-- A character that is not Python whitespace is not one of the bytes
`urlsplit` deletes. -/
theorem unsafe_of_pyWs (c : Char) (h : isPyWs c = false) :
    isUnsafeUrlByte c = false := by
  cases hu : isUnsafeUrlByte c with
  | false => rfl
  | true =>
    exfalso
    unfold isUnsafeUrlByte at hu
    rcases (by simpa using hu : c = '\t' ∨ c = '\r' ∨ c = '\n') with rfl | rfl | rfl <;>
      exact absurd h (by decide)

/-- `dropWhile` is the identity when no element satisfies the
predicate. -/
theorem dropWhile_eq_self_of (p : Char → Bool) (l : List Char)
    (h : ∀ c ∈ l, p c = false) : l.dropWhile p = l := by
  cases l with
  | nil => rfl
  | cons a as =>
    rw [List.dropWhile_cons, if_neg (by simp [h a (List.mem_cons_self a as)])]

/-- `str.strip` is the identity on whitespace-free strings. -/
theorem pyStrip_eq_self {l : List Char} (h : ∀ c ∈ l, isPyWs c = false) :
    pyStrip l = l := by
  unfold pyStrip
  rw [dropWhile_eq_self_of _ _ h]
  rw [dropWhile_eq_self_of _ _ (fun c hc => h c (List.mem_reverse.mp hc))]
  exact List.reverse_reverse l

/-- The WHATWG preclean is the identity on a `https://github.com/` URL
whose tail is free of tabs and line breaks. -/
theorem pyUrlPreclean_github (t : List Char)
    (hsafe : ∀ c ∈ t, isUnsafeUrlByte c = false) :
    pyUrlPreclean ((S "https://github.com/") ++ t) = (S "https://github.com/") ++ t := by
  unfold pyUrlPreclean
  rw [show (S "https://github.com/") ++ t = 'h' :: ((S "ttps://github.com/") ++ t) from rfl]
  rw [List.dropWhile_cons, if_neg (by decide)]
  rw [List.filter_eq_self.mpr ?hall]
  case hall =>
    intro a ha
    have hlit : ∀ c ∈ S "ttps://github.com/", isUnsafeUrlByte c = false := by decide
    rcases List.mem_cons.mp ha with rfl | ha2
    · decide
    · rcases List.mem_append.mp ha2 with hin | hin
      · simp [hlit a hin]
      · simp [hsafe a hin]

set_option maxRecDepth 4000 in
/-- Scheme splitting on a `https://github.com/` URL. -/
theorem pySplitScheme_github (t : List Char) :
    pySplitScheme ((S "https://github.com/") ++ t)
      = (S "https", (S "//github.com/") ++ t) := rfl

/-- `findSeq?` finds a leading occurrence at index 0. -/
theorem findSeq?_self_append (pat t : List Char) (hne : pat ≠ []) :
    findSeq? pat (pat ++ t) = some 0 := by
  obtain ⟨p, ps, rfl⟩ : ∃ p ps, pat = p :: ps := by
    cases pat with
    | nil => exact absurd rfl hne
    | cons p ps => exact ⟨p, ps, rfl⟩
  rw [show ((p :: ps) ++ t) = p :: (ps ++ t) from rfl]
  simp only [findSeq?]
  rw [if_pos (List.isPrefixOf_iff_prefix.mpr (by
    rw [show p :: (ps ++ t) = (p :: ps) ++ t from rfl]
    exact List.prefix_append _ _))]

/-- The full URL contains `github.com/`. -/
theorem containsSeq_github (t : List Char) :
    containsSeq (S "github.com/") ((S "https://github.com/") ++ t) = true := by
  rw [show (S "https://github.com/") ++ t
      = (S "https://") ++ ((S "github.com/") ++ t) from rfl]
  rw [show (S "github.com/") ++ t = (S "github.com/") ++ (t ++ []) from by
    rw [List.append_nil]]
  rw [show (S "https://") ++ ((S "github.com/") ++ (t ++ []))
      = (S "https://") ++ (((S "github.com/")) ++ (t ++ [])) from rfl]
  exact containsSeq_append_pat (S "github.com/") (S "https://") (t ++ [])

/-- The full URL contains a scheme separator. -/
theorem containsSeq_sep (t : List Char) :
    containsSeq (S "://") ((S "https://github.com/") ++ t) = true := by
  rw [show (S "https://github.com/") ++ t
      = (S "https") ++ ((S "://") ++ ((S "github.com/") ++ t)) from rfl]
  exact containsSeq_append_pat (S "://") (S "https") ((S "github.com/") ++ t)

/-- `urlparse` on a `https://github.com/` URL with a query-, fragment-
and unsafe-byte-free tail. -/
theorem pyUrlparse_github (t : List Char)
    (hsafe : ∀ c ∈ t, isUnsafeUrlByte c = false)
    (hq : t.contains '?' = false) (hh : t.contains '#' = false) :
    pyUrlparse ((S "https://github.com/") ++ t)
      = Except.ok ⟨S "https", S "github.com", (S "/") ++ t, [], []⟩ := by
  have hfrag : (List.dropWhile (fun c => !isNetlocStop c) ((S "github.com/") ++ t)).contains '#'
      = false := by
    rw [show List.dropWhile (fun c => !isNetlocStop c) ((S "github.com/") ++ t)
        = '/' :: t from rfl]
    rw [List.contains_cons, hh]
    decide
  have hquery : (List.dropWhile (fun c => !isNetlocStop c) ((S "github.com/") ++ t)).contains '?'
      = false := by
    rw [show List.dropWhile (fun c => !isNetlocStop c) ((S "github.com/") ++ t)
        = '/' :: t from rfl]
    rw [List.contains_cons, hq]
    decide
  unfold pyUrlparse
  rw [pyUrlPreclean_github t hsafe]
  dsimp only []
  rw [pySplitScheme_github t]
  dsimp only []
  rw [if_pos (show ((S "//github.com/") ++ t).take 2 = S "//" from rfl)]
  dsimp only []
  rw [show ((S "//github.com/") ++ t).drop 2 = (S "github.com/") ++ t from rfl]
  rw [show List.takeWhile (fun c => !isNetlocStop c) ((S "github.com/") ++ t)
      = S "github.com" from rfl]
  rw [if_neg (by decide)]
  rw [if_neg (show ¬((List.dropWhile (fun c => !isNetlocStop c)
      ((S "github.com/") ++ t)).contains '#' = true) from by
    rw [hfrag]
    decide)]
  dsimp only []
  rw [if_neg (show ¬((List.dropWhile (fun c => !isNetlocStop c)
      ((S "github.com/") ++ t)).contains '?' = true) from by
    rw [hquery]
    decide)]
  dsimp only []
  rw [show List.dropWhile (fun c => !isNetlocStop c) ((S "github.com/") ++ t)
      = (S "/") ++ t from rfl]

/-- `_normalize_repository_url` is the identity on a whitespace-free
`https://github.com/` URL. -/
theorem normalizeRepositoryUrl_github (t : List Char)
    (hws : ∀ c ∈ t, isPyWs c = false) :
    normalizeRepositoryUrl ((S "https://github.com/") ++ t)
      = (S "https://github.com/") ++ t := by
  have hfull : ∀ c ∈ (S "https://github.com/") ++ t, isPyWs c = false := by
    intro c hc
    rcases List.mem_append.mp hc with hin | hin
    · exact (by decide : ∀ c ∈ S "https://github.com/", isPyWs c = false) c hin
    · exact hws c hin
  unfold normalizeRepositoryUrl
  rw [pyStrip_eq_self hfull]
  dsimp only []
  rw [if_neg (show ¬((S "https://github.com/") ++ t = []) from
    fun hcon => List.cons_ne_nil 'h' ((S "ttps://github.com/") ++ t) hcon)]
  rw [if_neg (show ¬¬(containsSeq (S "://") ((S "https://github.com/") ++ t) = true) from
    fun hC => hC (containsSeq_sep t))]

/-- `_strip_query_and_fragment` is the identity on such URLs. -/
theorem stripQueryAndFragment_github (t : List Char)
    (hws : ∀ c ∈ t, isPyWs c = false)
    (hq : t.contains '?' = false) (hh : t.contains '#' = false) :
    stripQueryAndFragment (normalizeRepositoryUrl ((S "https://github.com/") ++ t))
      = Except.ok ((S "https://github.com/") ++ t) := by
  rw [normalizeRepositoryUrl_github t hws]
  unfold stripQueryAndFragment
  rw [exceptBind_ok _ _ _ (pyUrlparse_github t (fun c hc => unsafe_of_pyWs c (hws c hc)) hq hh)]
  rfl

/-- `_build_raw_base` on `https://github.com/<path>` with no `/tree/`
segment: the raw base keeps the entire remaining path and the default
branch. -/
theorem buildRawBase_github_plain (t : List Char)
    (hws : ∀ c ∈ t, isPyWs c = false)
    (hq : t.contains '?' = false) (hh : t.contains '#' = false)
    (hraw : containsSeq (S "raw.githubusercontent.com")
        ((S "https://github.com/") ++ t) = false)
    (h1 : containsSeq (S "https://") ((S "github.com/") ++ t) = false)
    (h2 : containsSeq (S "http://") ((S "github.com/") ++ t) = false)
    (hlead : pyLstripSlash t = t)
    (htree : containsSeq (S "/tree/") t = false)
    (hsl : ¬ t.getLast? = some '/')
    (hgit : endsWithSeq (S ".git") t = false) :
    buildRawBase ((S "https://github.com/") ++ t)
      = Except.ok ((S "https://raw.githubusercontent.com/") ++ t
          ++ (S "/refs/heads/") ++ (S "main") ++ (S "/")) := by
  unfold buildRawBase
  rw [exceptBind_ok _ _ _ (stripQueryAndFragment_github t hws hq hh)]
  dsimp only []
  rw [if_neg (show ¬(containsSeq (S "raw.githubusercontent.com")
      ((S "https://github.com/") ++ t) = true) from by
    rw [hraw]
    decide)]
  rw [if_pos (containsSeq_github t)]
  rw [show (S "https://github.com/") ++ t
      = (S "https://") ++ ((S "github.com/") ++ t) from rfl]
  rw [replaceAll_drop_leading (S "https://") ((S "github.com/") ++ t) (by decide) h1]
  rw [replaceAll_not_contains (S "http://") [] ((S "github.com/") ++ t) h2]
  rw [findSeq?_self_append (S "github.com/") t (by decide)]
  dsimp only []
  rw [show ((S "github.com/") ++ t).drop (0 + (S "github.com/").length) = t from rfl]
  rw [hlead]
  rw [if_neg (show ¬(containsSeq (S "/tree/") t = true) from by
    rw [htree]
    decide)]
  dsimp only []
  rw [if_neg hsl]
  rw [if_neg (show ¬(endsWithSeq (S ".git") t = true) from by
    rw [hgit]
    decide)]
  rfl

/-- `_build_raw_base` on `https://github.com/<path>.git`: the `.git`
suffix is stripped. -/
theorem buildRawBase_github_git (t : List Char)
    (hws : ∀ c ∈ t ++ S ".git", isPyWs c = false)
    (hq : (t ++ S ".git").contains '?' = false)
    (hh : (t ++ S ".git").contains '#' = false)
    (hraw : containsSeq (S "raw.githubusercontent.com")
        ((S "https://github.com/") ++ (t ++ S ".git")) = false)
    (h1 : containsSeq (S "https://") ((S "github.com/") ++ (t ++ S ".git")) = false)
    (h2 : containsSeq (S "http://") ((S "github.com/") ++ (t ++ S ".git")) = false)
    (hlead : pyLstripSlash (t ++ S ".git") = t ++ S ".git")
    (htree : containsSeq (S "/tree/") (t ++ S ".git") = false) :
    buildRawBase ((S "https://github.com/") ++ (t ++ S ".git"))
      = Except.ok ((S "https://raw.githubusercontent.com/") ++ t
          ++ (S "/refs/heads/") ++ (S "main") ++ (S "/")) := by
  unfold buildRawBase
  rw [exceptBind_ok _ _ _ (stripQueryAndFragment_github (t ++ S ".git") hws hq hh)]
  dsimp only []
  rw [if_neg (show ¬(containsSeq (S "raw.githubusercontent.com")
      ((S "https://github.com/") ++ (t ++ S ".git")) = true) from by
    rw [hraw]
    decide)]
  rw [if_pos (containsSeq_github (t ++ S ".git"))]
  rw [show (S "https://github.com/") ++ (t ++ S ".git")
      = (S "https://") ++ ((S "github.com/") ++ (t ++ S ".git")) from rfl]
  rw [replaceAll_drop_leading (S "https://") ((S "github.com/") ++ (t ++ S ".git"))
    (by decide) h1]
  rw [replaceAll_not_contains (S "http://") [] ((S "github.com/") ++ (t ++ S ".git")) h2]
  rw [findSeq?_self_append (S "github.com/") (t ++ S ".git") (by decide)]
  dsimp only []
  rw [show ((S "github.com/") ++ (t ++ S ".git")).drop (0 + (S "github.com/").length)
      = t ++ S ".git" from rfl]
  rw [hlead]
  rw [if_neg (show ¬(containsSeq (S "/tree/") (t ++ S ".git") = true) from by
    rw [htree]
    decide)]
  dsimp only []
  rw [if_neg (show ¬((t ++ S ".git").getLast? = some '/') from by
    rw [List.getLast?_append]
    rw [show ((S ".git").getLast?).or t.getLast? = some 't' from rfl]
    decide)]
  rw [if_pos (show endsWithSeq (S ".git") (t ++ S ".git") = true from by
    unfold endsWithSeq
    simp)]
  rw [show (t ++ S ".git").take ((t ++ S ".git").length - 4) = t from by
    rw [List.length_append]
    rw [show (S ".git").length = 4 from rfl]
    rw [Nat.add_sub_cancel]
    exact List.take_left t (S ".git")]
  rfl

/-- `_build_raw_base` on `https://github.com/<path>/tree/<branch>`: the
branch segment is extracted. -/
theorem buildRawBase_github_tree (rp br : List Char)
    (hws : ∀ c ∈ rp ++ ((S "/tree/") ++ br), isPyWs c = false)
    (hq : (rp ++ ((S "/tree/") ++ br)).contains '?' = false)
    (hh : (rp ++ ((S "/tree/") ++ br)).contains '#' = false)
    (hraw : containsSeq (S "raw.githubusercontent.com")
        ((S "https://github.com/") ++ (rp ++ ((S "/tree/") ++ br))) = false)
    (h1 : containsSeq (S "https://") ((S "github.com/") ++ (rp ++ ((S "/tree/") ++ br))) = false)
    (h2 : containsSeq (S "http://") ((S "github.com/") ++ (rp ++ ((S "/tree/") ++ br))) = false)
    (hlead : pyLstripSlash (rp ++ ((S "/tree/") ++ br)) = rp ++ ((S "/tree/") ++ br))
    (hfirst : containsSeq (S "/tree/") (rp ++ S "/tree") = false)
    (hbr : containsSeq (S "/tree/") br = false)
    (hbrs : '/' ∉ br)
    (hsl : ¬ rp.getLast? = some '/')
    (hgit : endsWithSeq (S ".git") rp = false) :
    buildRawBase ((S "https://github.com/") ++ (rp ++ ((S "/tree/") ++ br)))
      = Except.ok ((S "https://raw.githubusercontent.com/") ++ rp
          ++ (S "/refs/heads/") ++ br ++ (S "/")) := by
  unfold buildRawBase
  rw [exceptBind_ok _ _ _
    (stripQueryAndFragment_github (rp ++ ((S "/tree/") ++ br)) hws hq hh)]
  dsimp only []
  rw [if_neg (show ¬(containsSeq (S "raw.githubusercontent.com")
      ((S "https://github.com/") ++ (rp ++ ((S "/tree/") ++ br))) = true) from by
    rw [hraw]
    decide)]
  rw [if_pos (containsSeq_github (rp ++ ((S "/tree/") ++ br)))]
  rw [show (S "https://github.com/") ++ (rp ++ ((S "/tree/") ++ br))
      = (S "https://") ++ ((S "github.com/") ++ (rp ++ ((S "/tree/") ++ br))) from rfl]
  rw [replaceAll_drop_leading (S "https://")
    ((S "github.com/") ++ (rp ++ ((S "/tree/") ++ br))) (by decide) h1]
  rw [replaceAll_not_contains (S "http://") []
    ((S "github.com/") ++ (rp ++ ((S "/tree/") ++ br))) h2]
  rw [findSeq?_self_append (S "github.com/") (rp ++ ((S "/tree/") ++ br)) (by decide)]
  dsimp only []
  rw [show ((S "github.com/") ++ (rp ++ ((S "/tree/") ++ br))).drop
      (0 + (S "github.com/").length) = rp ++ ((S "/tree/") ++ br) from rfl]
  rw [hlead]
  rw [if_pos (containsSeq_append_pat (S "/tree/") rp br)]
  rw [splitOnSeq_append_first (S "/tree/") rp br (by decide) (by
    rw [show (S "/tree/" : List Char).dropLast = S "/tree" from rfl]
    exact hfirst)]
  rw [splitOnSeq_not_contains (S "/tree/") br hbr]
  dsimp only []
  rw [if_pos (show (1 : Nat) < (rp :: [br]).length from by simp)]
  rw [show (((rp :: [br] : List (List Char)).get? 1).getD []) = br from rfl]
  rw [findIdx?_slash_none br hbrs]
  dsimp only []
  rw [show ((rp :: [br] : List (List Char)).headD []) = rp from rfl]
  rw [if_neg hsl]
  rw [if_neg (show ¬(endsWithSeq (S ".git") rp = true) from by
    rw [hgit]
    decide)]
  rfl

/-- `_build_raw_base` on `https://github.com/<path>/tree/<branch>/<sub>`:
the branch is the segment right after `/tree/`; the rest is dropped. -/
theorem buildRawBase_github_tree_sub (rp br sub : List Char)
    (hws : ∀ c ∈ rp ++ ((S "/tree/") ++ (br ++ ((S "/") ++ sub))), isPyWs c = false)
    (hq : (rp ++ ((S "/tree/") ++ (br ++ ((S "/") ++ sub)))).contains '?' = false)
    (hh : (rp ++ ((S "/tree/") ++ (br ++ ((S "/") ++ sub)))).contains '#' = false)
    (hraw : containsSeq (S "raw.githubusercontent.com")
        ((S "https://github.com/") ++ (rp ++ ((S "/tree/") ++ (br ++ ((S "/") ++ sub))))) = false)
    (h1 : containsSeq (S "https://")
        ((S "github.com/") ++ (rp ++ ((S "/tree/") ++ (br ++ ((S "/") ++ sub))))) = false)
    (h2 : containsSeq (S "http://")
        ((S "github.com/") ++ (rp ++ ((S "/tree/") ++ (br ++ ((S "/") ++ sub))))) = false)
    (hlead : pyLstripSlash (rp ++ ((S "/tree/") ++ (br ++ ((S "/") ++ sub))))
        = rp ++ ((S "/tree/") ++ (br ++ ((S "/") ++ sub))))
    (hfirst : containsSeq (S "/tree/") (rp ++ S "/tree") = false)
    (hbr : containsSeq (S "/tree/") (br ++ ((S "/") ++ sub)) = false)
    (hbrs : '/' ∉ br)
    (hsl : ¬ rp.getLast? = some '/')
    (hgit : endsWithSeq (S ".git") rp = false) :
    buildRawBase ((S "https://github.com/") ++ (rp ++ ((S "/tree/") ++ (br ++ ((S "/") ++ sub)))))
      = Except.ok ((S "https://raw.githubusercontent.com/") ++ rp
          ++ (S "/refs/heads/") ++ br ++ (S "/")) := by
  unfold buildRawBase
  rw [exceptBind_ok _ _ _
    (stripQueryAndFragment_github (rp ++ ((S "/tree/") ++ (br ++ ((S "/") ++ sub)))) hws hq hh)]
  dsimp only []
  rw [if_neg (show ¬(containsSeq (S "raw.githubusercontent.com")
      ((S "https://github.com/") ++ (rp ++ ((S "/tree/") ++ (br ++ ((S "/") ++ sub))))) = true) from by
    rw [hraw]
    decide)]
  rw [if_pos (containsSeq_github (rp ++ ((S "/tree/") ++ (br ++ ((S "/") ++ sub)))))]
  rw [show (S "https://github.com/") ++ (rp ++ ((S "/tree/") ++ (br ++ ((S "/") ++ sub))))
      = (S "https://") ++ ((S "github.com/") ++ (rp ++ ((S "/tree/") ++ (br ++ ((S "/") ++ sub))))) from rfl]
  rw [replaceAll_drop_leading (S "https://")
    ((S "github.com/") ++ (rp ++ ((S "/tree/") ++ (br ++ ((S "/") ++ sub))))) (by decide) h1]
  rw [replaceAll_not_contains (S "http://") []
    ((S "github.com/") ++ (rp ++ ((S "/tree/") ++ (br ++ ((S "/") ++ sub))))) h2]
  rw [findSeq?_self_append (S "github.com/")
    (rp ++ ((S "/tree/") ++ (br ++ ((S "/") ++ sub)))) (by decide)]
  dsimp only []
  rw [show ((S "github.com/") ++ (rp ++ ((S "/tree/") ++ (br ++ ((S "/") ++ sub))))).drop
      (0 + (S "github.com/").length) = rp ++ ((S "/tree/") ++ (br ++ ((S "/") ++ sub))) from rfl]
  rw [hlead]
  rw [if_pos (containsSeq_append_pat (S "/tree/") rp (br ++ ((S "/") ++ sub)))]
  rw [splitOnSeq_append_first (S "/tree/") rp (br ++ ((S "/") ++ sub)) (by decide) (by
    rw [show (S "/tree/" : List Char).dropLast = S "/tree" from rfl]
    exact hfirst)]
  rw [splitOnSeq_not_contains (S "/tree/") (br ++ ((S "/") ++ sub)) hbr]
  dsimp only []
  rw [if_pos (show (1 : Nat) < (rp :: [br ++ ((S "/") ++ sub)]).length from by simp)]
  rw [show (((rp :: [br ++ ((S "/") ++ sub)] : List (List Char)).get? 1).getD [])
      = br ++ ((S "/") ++ sub) from rfl]
  rw [findIdx?_slash_append br sub hbrs]
  dsimp only []
  rw [List.take_left br ((S "/") ++ sub)]
  rw [show ((rp :: [br ++ ((S "/") ++ sub)] : List (List Char)).headD []) = rp from rfl]
  rw [if_neg hsl]
  rw [if_neg (show ¬(endsWithSeq (S ".git") rp = true) from by
    rw [hgit]
    decide)]
  rfl

set_option maxRecDepth 100000 in
/-- C2 counterexample: on `https://github.com/alice/proj/blob/x` (host
`github.com`, extra path segments, no `/tree/`) the program keeps the
ENTIRE remaining path `alice/proj/blob/x` in the raw base — it does not
truncate to the `<owner>/<repo>` segment pair, so the output differs
from the claimed `https://raw.githubusercontent.com/alice/proj/refs/heads/main/`. -/
theorem c2_counterexample :
    buildRawBase (S "https://github.com/alice/proj/blob/x")
      = Except.ok (S "https://raw.githubusercontent.com/alice/proj/blob/x/refs/heads/main/")
      ∧ S "https://raw.githubusercontent.com/alice/proj/blob/x/refs/heads/main/"
        ≠ S "https://raw.githubusercontent.com/alice/proj/refs/heads/main/" :=
  ⟨rfl, by decide⟩

/-- C2 (amended).  For a `github.com` web URL, `_build_raw_base`
produces `https://raw.githubusercontent.com/<path>/refs/heads/<branch>/`
where `<path>` is the ENTIRE path following `github.com/` — with the
`/tree/<branch>...` suffix removed, and a trailing slash and a trailing
`.git` stripped — not merely the `<owner>/<repo>` segment pair; and
`<branch>` is the segment immediately after the first `/tree/` when one
is present, else the constant `"main"`.  Four conjuncts: a plain path, a
`.git` path, a `/tree/<branch>` path and a `/tree/<branch>/<sub>` path.
The hypotheses are the program's own decidable tests at the given input:
the tail carries no whitespace, query marker, fragment marker or scheme
separator, does not mention the raw host, has no leading or trailing
slash, and the explicit `/tree/` occurrence (when present) is the first
one, with a slash-free branch segment. -/
theorem c2_raw_base :
    (∀ t : List Char,
      (∀ c ∈ t, isPyWs c = false) →
      t.contains '?' = false → t.contains '#' = false →
      containsSeq (S "raw.githubusercontent.com") ((S "https://github.com/") ++ t) = false →
      containsSeq (S "https://") ((S "github.com/") ++ t) = false →
      containsSeq (S "http://") ((S "github.com/") ++ t) = false →
      pyLstripSlash t = t →
      containsSeq (S "/tree/") t = false →
      ¬ t.getLast? = some '/' →
      endsWithSeq (S ".git") t = false →
      buildRawBase ((S "https://github.com/") ++ t)
        = Except.ok ((S "https://raw.githubusercontent.com/") ++ t
            ++ (S "/refs/heads/") ++ (S "main") ++ (S "/")))
    ∧ (∀ t : List Char,
      (∀ c ∈ t ++ S ".git", isPyWs c = false) →
      (t ++ S ".git").contains '?' = false →
      (t ++ S ".git").contains '#' = false →
      containsSeq (S "raw.githubusercontent.com")
        ((S "https://github.com/") ++ (t ++ S ".git")) = false →
      containsSeq (S "https://") ((S "github.com/") ++ (t ++ S ".git")) = false →
      containsSeq (S "http://") ((S "github.com/") ++ (t ++ S ".git")) = false →
      pyLstripSlash (t ++ S ".git") = t ++ S ".git" →
      containsSeq (S "/tree/") (t ++ S ".git") = false →
      buildRawBase ((S "https://github.com/") ++ (t ++ S ".git"))
        = Except.ok ((S "https://raw.githubusercontent.com/") ++ t
            ++ (S "/refs/heads/") ++ (S "main") ++ (S "/")))
    ∧ (∀ rp br : List Char,
      (∀ c ∈ rp ++ ((S "/tree/") ++ br), isPyWs c = false) →
      (rp ++ ((S "/tree/") ++ br)).contains '?' = false →
      (rp ++ ((S "/tree/") ++ br)).contains '#' = false →
      containsSeq (S "raw.githubusercontent.com")
        ((S "https://github.com/") ++ (rp ++ ((S "/tree/") ++ br))) = false →
      containsSeq (S "https://") ((S "github.com/") ++ (rp ++ ((S "/tree/") ++ br))) = false →
      containsSeq (S "http://") ((S "github.com/") ++ (rp ++ ((S "/tree/") ++ br))) = false →
      pyLstripSlash (rp ++ ((S "/tree/") ++ br)) = rp ++ ((S "/tree/") ++ br) →
      containsSeq (S "/tree/") (rp ++ S "/tree") = false →
      containsSeq (S "/tree/") br = false →
      '/' ∉ br →
      ¬ rp.getLast? = some '/' →
      endsWithSeq (S ".git") rp = false →
      buildRawBase ((S "https://github.com/") ++ (rp ++ ((S "/tree/") ++ br)))
        = Except.ok ((S "https://raw.githubusercontent.com/") ++ rp
            ++ (S "/refs/heads/") ++ br ++ (S "/")))
    ∧ (∀ rp br sub : List Char,
      (∀ c ∈ rp ++ ((S "/tree/") ++ (br ++ ((S "/") ++ sub))), isPyWs c = false) →
      (rp ++ ((S "/tree/") ++ (br ++ ((S "/") ++ sub)))).contains '?' = false →
      (rp ++ ((S "/tree/") ++ (br ++ ((S "/") ++ sub)))).contains '#' = false →
      containsSeq (S "raw.githubusercontent.com")
        ((S "https://github.com/") ++ (rp ++ ((S "/tree/") ++ (br ++ ((S "/") ++ sub))))) = false →
      containsSeq (S "https://")
        ((S "github.com/") ++ (rp ++ ((S "/tree/") ++ (br ++ ((S "/") ++ sub))))) = false →
      containsSeq (S "http://")
        ((S "github.com/") ++ (rp ++ ((S "/tree/") ++ (br ++ ((S "/") ++ sub))))) = false →
      pyLstripSlash (rp ++ ((S "/tree/") ++ (br ++ ((S "/") ++ sub))))
        = rp ++ ((S "/tree/") ++ (br ++ ((S "/") ++ sub))) →
      containsSeq (S "/tree/") (rp ++ S "/tree") = false →
      containsSeq (S "/tree/") (br ++ ((S "/") ++ sub)) = false →
      '/' ∉ br →
      ¬ rp.getLast? = some '/' →
      endsWithSeq (S ".git") rp = false →
      buildRawBase ((S "https://github.com/") ++ (rp ++ ((S "/tree/") ++ (br ++ ((S "/") ++ sub)))))
        = Except.ok ((S "https://raw.githubusercontent.com/") ++ rp
            ++ (S "/refs/heads/") ++ br ++ (S "/"))) :=
  ⟨fun t a1 a2 a3 a4 a5 a6 a7 a8 a9 a10 =>
      buildRawBase_github_plain t a1 a2 a3 a4 a5 a6 a7 a8 a9 a10,
    fun t a1 a2 a3 a4 a5 a6 a7 a8 =>
      buildRawBase_github_git t a1 a2 a3 a4 a5 a6 a7 a8,
    fun rp br a1 a2 a3 a4 a5 a6 a7 a8 a9 a10 a11 a12 =>
      buildRawBase_github_tree rp br a1 a2 a3 a4 a5 a6 a7 a8 a9 a10 a11 a12,
    fun rp br sub a1 a2 a3 a4 a5 a6 a7 a8 a9 a10 a11 a12 =>
      buildRawBase_github_tree_sub rp br sub a1 a2 a3 a4 a5 a6 a7 a8 a9 a10 a11 a12⟩

/-- Witness for C2 (amended) at a concrete `/tree/` URL. -/
theorem c2_raw_base_witness :
    buildRawBase ((S "https://github.com/") ++ ((S "alice/proj") ++ ((S "/tree/") ++ (S "dev"))))
      = Except.ok ((S "https://raw.githubusercontent.com/") ++ (S "alice/proj")
          ++ (S "/refs/heads/") ++ (S "dev") ++ (S "/")) :=
  c2_raw_base.2.2.1 (S "alice/proj") (S "dev") (by decide) (by decide) (by decide)
    (by decide) (by decide) (by decide) (by decide) (by decide) (by decide) (by decide)
    (by decide) (by decide)
